import Mathlib

/-!
Shallow embedding of christmas_tree.py (RocketDonkey/LEDs): a controller for a
strip of WS2811 LEDs that renders decorative patterns on a fixed-length pixel
buffer.  Pure data is translated directly; the mutable strip is explicit state
passing on a `Strip` record that also keeps a trace of every setPixelColor call
and a snapshot of the buffer at every flush, so that theorems can speak about
"every index passed to the setter" and "the buffer at the moment of each flush".
Machine floats are modelled by exact rationals; Python int() truncation toward
zero is modelled explicitly.
-/

namespace ChristmasTree

/-- Python int() on a rational: truncation toward zero (floor for nonnegative
values, ceiling for negative ones). -/
def pyInt (q : Rat) : Int :=
  if 0 ≤ q then q.floor else q.ceil

/-- Modelled from the spec: the rpi_ws281x Color constructor is an external
collaborator not in src/; spec section 3 describes a color as an opaque 24-bit
RGB value, one byte per channel.  For channel values in 0..255 this packing
agrees with the library's bitwise packing (red << 16 | green << 8 | blue). -/
def Color (r g b : Int) : Int :=
  r * 65536 + g * 256 + b

/-- Colors.NONE = Color(0, 0, 0). -/
def Colors.NONE : Nat := 0

/-- Colors.WARM_WHITE = Color(255, 147, 41). -/
def Colors.WARM_WHITE : Nat := 255 * 65536 + 147 * 256 + 41

/-- Colors.CRYSTAL_BLUE = Color(0, 67, 255). -/
def Colors.CRYSTAL_BLUE : Nat := 0 * 65536 + 67 * 256 + 255

/-- Colors.CRYSTAL_RED = Color(255, 0, 0). -/
def Colors.CRYSTAL_RED : Nat := 255 * 65536 + 0 * 256 + 0

/-- Colors.CRYSTAL_GREEN = Color(0, 255, 0). -/
def Colors.CRYSTAL_GREEN : Nat := 0 * 65536 + 255 * 256 + 0

/-- Colors.PURE_WHITE = Color(255, 255, 255). -/
def Colors.PURE_WHITE : Nat := 255 * 65536 + 255 * 256 + 255

/-- The _DEMO_COLORS tuple streamed through by Run. -/
def DEMO_COLORS : List Nat :=
  [Colors.CRYSTAL_BLUE, Colors.CRYSTAL_RED, Colors.CRYSTAL_GREEN, Colors.PURE_WHITE]

/-- alter_brightness(color, brightness): scales each 8-bit channel of the
packed color by the brightness factor, truncating with Python int(), and
repacks the result with Color. -/
def alter_brightness (color : Nat) (brightness : Rat := 1) : Int :=
  Color
    (pyInt ((color >>> 16 &&& 0xFF : Nat) * brightness))
    (pyInt ((color >>> 8 &&& 0xFF : Nat) * brightness))
    (pyInt ((color &&& 0xFF : Nat) * brightness))

/-- Python range(a, b) with step 1, over mathematical integers. -/
def pyRange (a b : Int) : List Int :=
  (List.range (b - a).toNat).map fun i : Nat => a + (i : Int)

/-- Python range(a, b, -1): a, a-1, ..., b+1. -/
def pyRangeRev (a b : Int) : List Int :=
  (List.range (a - b).toNat).map fun i : Nat => a - (i : Int)

/-- Python range(0, n, step) for a positive step. -/
def pyRangeStep (n step : Nat) : List Int :=
  (List.range ((n + step - 1) / step)).map fun i : Nat => ((step * i : Nat) : Int)

/-- The state of the LED strip, instrumented for verification: the pixel
buffer itself, the full trace of (index, packed color) pairs passed to
setPixelColor, and a snapshot (buffer, wait_ms) at each flush. -/
structure Strip where
  buf : List Int
  writes : List (Int × Int)
  frames : List (List Int × Int)

/-- The buffer effect of one setPixelColor call.  Modelled from the spec:
setPixelColor is supplied by the external rpi_ws281x library; spec section 4.2
says a write fails / no-ops when the index is out of [0, N). -/
def bufWrite (b : List Int) (n : Int) (c : Int) : List Int :=
  if 0 ≤ n ∧ n < (b.length : Int) then b.set n.toNat c else b

/-- strip.setPixelColor(n, color): records the call and updates the buffer
(no-op out of range, per the spec model of the external library). -/
def setPixelColor (s : Strip) (n : Int) (c : Int) : Strip :=
  { buf := bufWrite s.buf n c, writes := s.writes ++ [(n, c)], frames := s.frames }

/-- LightController._set_pixel_color(index, color, brightness=1.0). -/
def set_pixel_color (s : Strip) (index : Int) (color : Nat) (brightness : Rat := 1) : Strip :=
  setPixelColor s index (alter_brightness color brightness)

/-- LightController._show_with_delay(wait_ms=50): flushes the buffer (recorded
as a snapshot) and sleeps; real time is not modelled, the delay argument is
recorded with the frame. -/
def show_with_delay (s : Strip) (wait_ms : Int := 50) : Strip :=
  { s with frames := s.frames ++ [(s.buf, wait_ms)] }

/-- The body of the inner loop of draw_and_erase for one head position
led_idx: a 10-pixel trailing fade of the current phase color, the clear of the
11th-back pixel when it is on the strip, then a flush. -/
def drawStep (color : Nat) (wait_ms : Int) (s : Strip) (led_idx : Int) : Strip :=
  let lower_bound := max (led_idx - 10) 0
  let s := ((pyRangeRev led_idx lower_bound).enum).foldl
    (fun s p => set_pixel_color s p.2 color (((10 - (p.1 : Int) : Int) : Rat) / 10)) s
  let s := if lower_bound > 0 then set_pixel_color s lower_bound Colors.NONE else s
  show_with_delay s wait_ms

/-- LightController.draw_and_erase(draw_color, eraser, wait_ms=50): two phases,
range(num_pixels) then range(num_pixels, 0, -1); the phase color is selected by
the Python conditional (draw_color if range_idx else eraser), so the phase with
range_idx = 0 uses eraser and the phase with range_idx = 1 uses draw_color. -/
def draw_and_erase (N : Nat) (draw_color eraser : Nat) (wait_ms : Int) (s : Strip) : Strip :=
  ([(0, pyRange 0 N), (1, pyRangeRev N 0)] : List (Nat × List Int)).foldl
    (fun s pr =>
      let color := if pr.1 ≠ 0 then draw_color else eraser
      pr.2.foldl (drawStep color wait_ms) s) s

/-- LightController.christmas_colors(wait_ms=50): white/red/green 3-cycle at
brightness 0.4, then two consecutive flushes with the same delay. -/
def christmas_colors (N : Nat) (wait_ms : Int) (s : Strip) : Strip :=
  let s := (pyRangeStep N 3).foldl
    (fun s i =>
      let s := set_pixel_color s i Colors.PURE_WHITE (4 / 10 : Rat)
      let s := set_pixel_color s (i + 1) Colors.CRYSTAL_RED (4 / 10 : Rat)
      set_pixel_color s (i + 2) Colors.CRYSTAL_GREEN (4 / 10 : Rat)) s
  let s := show_with_delay s wait_ms
  show_with_delay s wait_ms

/-- LightController.pulse(color, wait_ms=50): brightness b/10 for b in
range(1, 10), each a full uniform fill plus a flush, then the same for b in
range(10, 1, -1). -/
def pulse (N : Nat) (color : Nat) (wait_ms : Int) (s : Strip) : Strip :=
  let s := (pyRange 1 10).foldl
    (fun s (brightness : Int) =>
      show_with_delay
        ((pyRange 0 N).foldl
          (fun s i => set_pixel_color s i color ((brightness : Rat) / 10)) s)
        wait_ms) s
  (pyRangeRev 10 1).foldl
    (fun s (brightness : Int) =>
      show_with_delay
        ((pyRange 0 N).foldl
          (fun s i => set_pixel_color s i color ((brightness : Rat) / 10)) s)
        wait_ms) s

/-- LightController.pulse_between(colors, wait_ms=50). -/
def pulse_between (N : Nat) (colors : List Nat) (wait_ms : Int) (s : Strip) : Strip :=
  colors.foldl (fun s c => pulse N c wait_ms s) s

/-- The body of the loop of vapor_trail for one head position led_idx:
the trail of increasing brightness ahead of the head (wrapping with mod),
then the trail_color write at the head itself, then a flush. -/
def vaporStep (N : Nat) (color : Nat) (trail : Nat) (trail_color : Nat) (wait_ms : Int)
    (s : Strip) (led_idx : Int) : Strip :=
  let upper_bound := led_idx + trail
  let s := ((pyRange led_idx upper_bound).enum).foldl
    (fun s p =>
      set_pixel_color s ((led_idx + (p.1 : Int)) % (N : Int)) color ((p.1 : Rat) / (trail : Rat))) s
  let s := if led_idx ≥ 0 then set_pixel_color s led_idx trail_color else s
  show_with_delay s wait_ms

/-- LightController.vapor_trail(color, trail=10, trail_color=NONE, wait_ms=50). -/
def vapor_trail (N : Nat) (color : Nat) (trail : Nat) (trail_color : Nat) (wait_ms : Int)
    (s : Strip) : Strip :=
  (pyRange 0 N).foldl (vaporStep N color trail trail_color wait_ms) s

/-- LightController.candy_cane(wait_ms=50): a pure-white base fill and flush,
then a red vapor trail with a white trail color. -/
def candy_cane (N : Nat) (wait_ms : Int) (s : Strip) : Strip :=
  let s := show_with_delay
    ((pyRange 0 N).foldl (fun s i => set_pixel_color s i Colors.PURE_WHITE) s) wait_ms
  vapor_trail N Colors.CRYSTAL_RED 10 Colors.PURE_WHITE wait_ms s

/-- LightController.alternating_colors(first, second, wait_ms=50). -/
def alternating_colors (N : Nat) (first second : Nat) (wait_ms : Int) (s : Strip) : Strip :=
  show_with_delay
    ((pyRangeStep N 2).foldl
      (fun s i =>
        let s := set_pixel_color s i first
        set_pixel_color s (i + 1) second) s)
    wait_ms

/-- LightController.single_color(color, wait_ms=50). -/
def single_color (N : Nat) (color : Nat) (wait_ms : Int) (s : Strip) : Strip :=
  show_with_delay ((pyRange 0 N).foldl (fun s i => set_pixel_color s i color) s) wait_ms

/-- One iteration of the body of LightController.Run's while-True loop, with
the fixed strip length _NUM_LEDS = 150 and the arguments used there. -/
def cycleOnce (s : Strip) : Strip :=
  let s := single_color 150 Colors.CRYSTAL_BLUE 50 s
  let s := alternating_colors 150 Colors.CRYSTAL_BLUE Colors.PURE_WHITE 50 s
  let s := pulse_between 150 [Colors.WARM_WHITE, Colors.CRYSTAL_BLUE] 50 s
  let s := DEMO_COLORS.foldl (fun s color => pulse 150 color 75 s) s
  let s := christmas_colors 150 50 s
  let s := candy_cane 150 50 s
  let s := DEMO_COLORS.foldl
    (fun s color => draw_and_erase 150 color Colors.WARM_WHITE 50 s) s
  DEMO_COLORS.foldl (fun s color => vapor_trail 150 color 20 Colors.NONE 50 s) s

/-- Replaying a trace of setPixelColor calls over a buffer: exactly the
buffer effect the instrumented Strip records. -/
def applyWrites (b : List Int) (ws : List (Int × Int)) : List Int :=
  ws.foldl (fun b w => bufWrite b w.1 w.2) b

/-- Strip states reachable from s by a sequence of setPixelColor calls and
flushes: every pattern of the controller produces a reachable state. -/
inductive Reaches (s : Strip) : Strip → Prop
  | refl : Reaches s s
  | set (t : Strip) (n c : Int) : Reaches s t → Reaches s (setPixelColor t n c)
  | flush (t : Strip) (w : Int) : Reaches s t → Reaches s (show_with_delay t w)

/-- The buffer discipline between two strip states: the final buffer is the
initial buffer updated by the new setter calls in order (last write wins, a
slot never written retains its initial value), and every frame flushed in
between is the initial buffer updated by the setter calls made before that
flush. -/
def FlushesFaithful (s t : Strip) : Prop :=
  ∃ ws, t.writes = s.writes ++ ws ∧ t.buf = applyWrites s.buf ws ∧
    ∀ fr ∈ t.frames, fr ∈ s.frames ∨
      ∃ ws1 ws2, ws1 ++ ws2 = ws ∧ fr.1 = applyWrites s.buf ws1

/-- The exact sequence of setter calls made by one head position of
draw_and_erase: the 10-pixel trailing fade and, when the 11th-back pixel is on
the strip, its clear. -/
def drawWrites (color : Nat) (led : Int) : List (Int × Int) :=
  ((pyRangeRev led (max (led - 10) 0)).enum.map
    fun p => (p.2, alter_brightness color (((10 - (p.1 : Int) : Int) : Rat) / 10))) ++
  (if max (led - 10) 0 > 0 then [(max (led - 10) 0, alter_brightness Colors.NONE 1)] else [])

/-- The exact sequence of setter calls made by one head position of
vapor_trail: the brightening trail ahead of the head (wrapping with mod N)
followed by the trail_color write at the head. -/
def vaporWrites (N : Nat) (color : Nat) (trail : Nat) (trail_color : Nat) (led : Int) :
    List (Int × Int) :=
  ((pyRange led (led + trail)).enum.map
    fun p => ((led + (p.1 : Int)) % (N : Int), alter_brightness color ((p.1 : Rat) / (trail : Rat)))) ++
  [(led, alter_brightness trail_color 1)]

/-- The repeating three-color cycle of christmas_colors, selected by
index mod 3. -/
def chrColor (r : Nat) : Nat :=
  if r = 0 then Colors.PURE_WHITE else if r = 1 then Colors.CRYSTAL_RED else Colors.CRYSTAL_GREEN

/-- A fresh strip of n pixels all holding the packed color v, with empty
traces: the state at the start of a pattern call. -/
def initStrip (n : Nat) (v : Int) : Strip :=
  ⟨List.replicate n v, [], []⟩

end ChristmasTree

namespace ChristmasTree

theorem mem_pyRange {a b x : Int} : x ∈ pyRange a b ↔ a ≤ x ∧ x < b := by
  simp only [pyRange, List.mem_map, List.mem_range]
  constructor
  · rintro ⟨i, hi, rfl⟩
    omega
  · rintro ⟨h1, h2⟩
    exact ⟨(x - a).toNat, by omega, by omega⟩

theorem mem_pyRangeRev {a b x : Int} : x ∈ pyRangeRev a b ↔ b < x ∧ x ≤ a := by
  simp only [pyRangeRev, List.mem_map, List.mem_range]
  constructor
  · rintro ⟨i, hi, rfl⟩
    omega
  · rintro ⟨h1, h2⟩
    exact ⟨(a - x).toNat, by omega, by omega⟩

theorem mem_pyRangeStep {n step : Nat} {x : Int} (h : x ∈ pyRangeStep n step) :
    ∃ i : Nat, x = ((step * i : Nat) : Int) ∧ i < (n + step - 1) / step := by
  simp only [pyRangeStep, List.mem_map, List.mem_range] at h
  obtain ⟨i, hi, rfl⟩ := h
  exact ⟨i, rfl, hi⟩

theorem pyRange_succ {a b : Int} (h : a ≤ b) : pyRange a (b + 1) = pyRange a b ++ [b] := by
  simp only [pyRange]
  have h1 : (b + 1 - a).toNat = (b - a).toNat + 1 := by omega
  rw [h1, List.range_succ, List.map_append, List.map_singleton]
  congr 2
  omega

theorem pyRangeRev_cons {a b : Int} (h : b < a) :
    pyRangeRev a b = a :: pyRangeRev (a - 1) b := by
  simp only [pyRangeRev]
  have h1 : (a - b).toNat = (a - 1 - b).toNat + 1 := by omega
  rw [h1, List.range_succ_eq_map, List.map_cons, List.map_map]
  refine List.cons_eq_cons.mpr ⟨by omega, List.map_congr_left fun i _ => ?_⟩
  simp only [Function.comp_apply, Nat.succ_eq_add_one]
  push_cast
  ring

theorem enum_map_range {α : Type} (f : Nat → α) (n : Nat) :
    ((List.range n).map f).enum = (List.range n).map fun i => (i, f i) := by
  apply List.ext_getElem?
  intro m
  rcases Nat.lt_or_ge m n with hm | hm
  · simp [List.enum_eq_enumFrom, List.getElem?_enumFrom, List.getElem?_range hm]
  · have h1 : ((List.range n).map f)[m]? = none := by
      rw [List.getElem?_eq_none]
      simpa using hm
    have h2 : ((List.range n).map fun i => (i, f i))[m]? = none := by
      rw [List.getElem?_eq_none]
      simpa using hm
    simp [List.enum_eq_enumFrom, List.getElem?_enumFrom, h1, h2]

theorem length_bufWrite (b : List Int) (n c : Int) : (bufWrite b n c).length = b.length := by
  unfold bufWrite
  split <;> simp

theorem applyWrites_cons (b : List Int) (w : Int × Int) (ws : List (Int × Int)) :
    applyWrites b (w :: ws) = applyWrites (bufWrite b w.1 w.2) ws := rfl

theorem applyWrites_append (b : List Int) (w1 w2 : List (Int × Int)) :
    applyWrites b (w1 ++ w2) = applyWrites (applyWrites b w1) w2 := by
  simp [applyWrites, List.foldl_append]

theorem length_applyWrites (b : List Int) (ws : List (Int × Int)) :
    (applyWrites b ws).length = b.length := by
  induction ws generalizing b with
  | nil => rfl
  | cons w ws ih => rw [applyWrites_cons, ih, length_bufWrite]

theorem getElem?_bufWrite_ne {b : List Int} {n c : Int} {j : Nat} (h : n ≠ (j : Int)) :
    (bufWrite b n c)[j]? = b[j]? := by
  unfold bufWrite
  split
  · next hg => rw [List.getElem?_set_ne (by omega)]
  · rfl

theorem getElem?_bufWrite_self (b : List Int) (c n : Int)
    (h0 : 0 ≤ n) (h1 : n < (b.length : Int)) :
    (bufWrite b n c)[n.toNat]? = some c := by
  unfold bufWrite
  rw [if_pos ⟨h0, h1⟩, List.getElem?_set_self (by omega)]

theorem getElem?_applyWrites_ne {b : List Int} {ws : List (Int × Int)} {j : Nat}
    (h : ∀ w ∈ ws, w.1 ≠ (j : Int)) :
    (applyWrites b ws)[j]? = b[j]? := by
  induction ws generalizing b with
  | nil => rfl
  | cons w ws ih =>
    rw [applyWrites_cons, ih fun x hx => h x (List.mem_cons_of_mem _ hx),
      getElem?_bufWrite_ne (h w (List.mem_cons_self _ _))]

theorem getElem?_applyWrites_last {b : List Int} {ws1 ws2 : List (Int × Int)} {j v : Int}
    (h2 : ∀ w ∈ ws2, w.1 ≠ j) (h0 : 0 ≤ j) (h1 : j < (b.length : Int)) :
    (applyWrites b (ws1 ++ (j, v) :: ws2))[j.toNat]? = some v := by
  rw [applyWrites_append, applyWrites_cons]
  have hj : ((j.toNat : Nat) : Int) = j := by omega
  rw [getElem?_applyWrites_ne (by simpa [hj] using h2)]
  exact getElem?_bufWrite_self _ _ _ h0 (by rw [length_applyWrites]; exact h1)

theorem getElem?_applyWrites_range (b : List Int) (n : Nat) (ix : Nat → Int) (v : Nat → Int)
    {j : Nat} (hj : j < n)
    (hinj : ∀ o, o < n → o ≠ j → ix o ≠ ix j)
    (h0 : 0 ≤ ix j) (h1 : ix j < (b.length : Int)) :
    (applyWrites b ((List.range n).map fun o => (ix o, v o)))[(ix j).toNat]? = some (v j) := by
  induction n with
  | zero => omega
  | succ m ih =>
    rw [List.range_succ, List.map_append, applyWrites_append, List.map_singleton]
    have hsingle : applyWrites (applyWrites b ((List.range m).map fun o => (ix o, v o)))
        [(ix m, v m)] = bufWrite (applyWrites b ((List.range m).map fun o => (ix o, v o)))
        (ix m) (v m) := rfl
    rw [hsingle]
    rcases Nat.lt_or_ge j m with hjm | hjm
    · have hne : ix m ≠ ((ix j).toNat : Int) := by
        rw [Int.toNat_of_nonneg h0]
        exact hinj m (by omega) (by omega)
      rw [getElem?_bufWrite_ne hne]
      exact ih hjm fun o ho => hinj o (by omega)
    · have hje : j = m := by omega
      subst hje
      exact getElem?_bufWrite_self _ _ _ h0 (by rw [length_applyWrites]; exact h1)

theorem foldl_set_desc {α : Type} (l : List α) (f : Strip → α → Strip) (g : α → Int × Int)
    (hf : ∀ s a, f s a = setPixelColor s (g a).1 (g a).2) (s : Strip) :
    (l.foldl f s).writes = s.writes ++ l.map g ∧
    (l.foldl f s).buf = applyWrites s.buf (l.map g) ∧
    (l.foldl f s).frames = s.frames := by
  induction l generalizing s with
  | nil => simp [applyWrites]
  | cons x xs ih =>
    simp only [List.foldl_cons, List.map_cons, hf]
    obtain ⟨hw, hb, hfr⟩ := ih (setPixelColor s (g x).1 (g x).2)
    refine ⟨?_, ?_, ?_⟩
    · rw [hw]
      simp [setPixelColor]
    · rw [hb, applyWrites_cons]
      rfl
    · rw [hfr]
      rfl

end ChristmasTree

namespace ChristmasTree

theorem Reaches.trans {s t u : Strip} (h1 : Reaches s t) (h2 : Reaches t u) : Reaches s u := by
  induction h2 with
  | refl => exact h1
  | set t' n c _ ih => exact Reaches.set t' n c ih
  | flush t' w _ ih => exact Reaches.flush t' w ih

theorem reaches_set_self (t : Strip) (i : Int) (c : Nat) (br : Rat) :
    Reaches t (set_pixel_color t i c br) :=
  Reaches.set t i (alter_brightness c br) (Reaches.refl)

theorem reaches_foldl {α : Type} (l : List α) (f : Strip → α → Strip) :
    (∀ t a, a ∈ l → Reaches t (f t a)) →
    ∀ {s t : Strip}, Reaches s t → Reaches s (l.foldl f t) := by
  induction l with
  | nil =>
    intro _ s t h
    exact h
  | cons a l ih =>
    intro hf s t h
    exact ih (fun u b hb => hf u b (List.mem_cons_of_mem _ hb))
      (Reaches.trans h (hf t a (List.mem_cons_self _ _)))

theorem reaches_drawStep (c : Nat) (w : Int) (t : Strip) (led : Int) :
    Reaches t (drawStep c w t led) := by
  simp only [drawStep]
  refine Reaches.flush _ w ?_
  split
  · exact Reaches.set _ _ _ (reaches_foldl _ _ (fun t p _ => reaches_set_self t _ _ _) Reaches.refl)
  · exact reaches_foldl _ _ (fun t p _ => reaches_set_self t _ _ _) Reaches.refl

theorem reaches_vaporStep (N : Nat) (c trail tc : Nat) (w : Int) (t : Strip) (led : Int) :
    Reaches t (vaporStep N c trail tc w t led) := by
  simp only [vaporStep]
  refine Reaches.flush _ w ?_
  split
  · exact Reaches.set _ _ _ (reaches_foldl _ _ (fun t p _ => reaches_set_self t _ _ _) Reaches.refl)
  · exact reaches_foldl _ _ (fun t p _ => reaches_set_self t _ _ _) Reaches.refl

theorem reaches_single_color (N : Nat) (c : Nat) (w : Int) (t : Strip) :
    Reaches t (single_color N c w t) :=
  Reaches.flush _ w (reaches_foldl _ _ (fun t i _ => reaches_set_self t _ _ _) Reaches.refl)

theorem reaches_alternating (N : Nat) (c1 c2 : Nat) (w : Int) (t : Strip) :
    Reaches t (alternating_colors N c1 c2 w t) :=
  Reaches.flush _ w
    (reaches_foldl _ _
      (fun t i _ => Reaches.set _ _ _ (Reaches.set _ _ _ Reaches.refl)) Reaches.refl)

theorem reaches_christmas (N : Nat) (w : Int) (t : Strip) :
    Reaches t (christmas_colors N w t) := by
  simp only [christmas_colors]
  exact Reaches.flush _ w (Reaches.flush _ w
    (reaches_foldl _ _
      (fun t i _ => Reaches.set _ _ _ (Reaches.set _ _ _ (Reaches.set _ _ _ Reaches.refl)))
      Reaches.refl))

theorem reaches_pulse (N : Nat) (c : Nat) (w : Int) (t : Strip) :
    Reaches t (pulse N c w t) := by
  simp only [pulse]
  refine reaches_foldl _ _ (fun t br _ => ?_) (reaches_foldl _ _ (fun t br _ => ?_) Reaches.refl)
  · exact Reaches.flush _ w (reaches_foldl _ _ (fun t i _ => reaches_set_self t _ _ _) Reaches.refl)
  · exact Reaches.flush _ w (reaches_foldl _ _ (fun t i _ => reaches_set_self t _ _ _) Reaches.refl)

theorem reaches_pulse_between (N : Nat) (cs : List Nat) (w : Int) (t : Strip) :
    Reaches t (pulse_between N cs w t) :=
  reaches_foldl _ _ (fun t c _ => reaches_pulse N c w t) Reaches.refl

theorem reaches_vapor_trail (N : Nat) (c trail tc : Nat) (w : Int) (t : Strip) :
    Reaches t (vapor_trail N c trail tc w t) :=
  reaches_foldl _ _ (fun t led _ => reaches_vaporStep N c trail tc w t led) Reaches.refl

theorem reaches_candy_cane (N : Nat) (w : Int) (t : Strip) :
    Reaches t (candy_cane N w t) := by
  simp only [candy_cane]
  exact Reaches.trans
    (Reaches.flush _ w (reaches_foldl _ _ (fun t i _ => reaches_set_self t _ _ _) Reaches.refl))
    (reaches_vapor_trail N Colors.CRYSTAL_RED 10 Colors.PURE_WHITE w _)

theorem reaches_draw_and_erase (N : Nat) (dc er : Nat) (w : Int) (t : Strip) :
    Reaches t (draw_and_erase N dc er w t) := by
  simp only [draw_and_erase]
  exact reaches_foldl _ _
    (fun t pr _ => reaches_foldl _ _ (fun t led _ => reaches_drawStep _ w t led) Reaches.refl)
    Reaches.refl

theorem reaches_cycleOnce (t : Strip) : Reaches t (cycleOnce t) := by
  simp only [cycleOnce]
  refine Reaches.trans (reaches_single_color 150 Colors.CRYSTAL_BLUE 50 t) ?_
  refine Reaches.trans (reaches_alternating 150 Colors.CRYSTAL_BLUE Colors.PURE_WHITE 50 _) ?_
  refine Reaches.trans
    (reaches_pulse_between 150 [Colors.WARM_WHITE, Colors.CRYSTAL_BLUE] 50 _) ?_
  refine Reaches.trans
    (reaches_foldl DEMO_COLORS (fun t c => pulse 150 c 75 t)
      (fun t c _ => reaches_pulse 150 c 75 t) Reaches.refl) ?_
  refine Reaches.trans (reaches_christmas 150 50 _) ?_
  refine Reaches.trans (reaches_candy_cane 150 50 _) ?_
  refine Reaches.trans
    (reaches_foldl DEMO_COLORS (fun t c => draw_and_erase 150 c Colors.WARM_WHITE 50 t)
      (fun t c _ => reaches_draw_and_erase 150 c Colors.WARM_WHITE 50 t) Reaches.refl) ?_
  exact reaches_foldl DEMO_COLORS (fun t c => vapor_trail 150 c 20 Colors.NONE 50 t)
    (fun t c _ => reaches_vapor_trail 150 c 20 Colors.NONE 50 t) Reaches.refl

theorem reaches_flushesFaithful {s t : Strip} (h : Reaches s t) : FlushesFaithful s t := by
  induction h with
  | refl => exact ⟨[], by simp, rfl, fun fr hfr => Or.inl hfr⟩
  | set t' n c _ ih =>
    obtain ⟨ws, hw, hb, hfr⟩ := ih
    refine ⟨ws ++ [(n, c)], ?_, ?_, ?_⟩
    · simp [setPixelColor, hw]
    · rw [applyWrites_append, ← hb]
      rfl
    · intro fr hfr2
      rcases hfr fr hfr2 with h1 | ⟨ws1, ws2, hsplit, heq⟩
      · exact Or.inl h1
      · exact Or.inr ⟨ws1, ws2 ++ [(n, c)], by rw [← List.append_assoc, hsplit], heq⟩
  | flush t' w _ ih =>
    obtain ⟨ws, hw, hb, hfr⟩ := ih
    refine ⟨ws, hw, hb, ?_⟩
    intro fr hfr2
    simp only [show_with_delay, List.mem_append, List.mem_singleton] at hfr2
    rcases hfr2 with h1 | h1
    · exact hfr fr h1
    · subst h1
      exact Or.inr ⟨ws, [], by simp, hb⟩

end ChristmasTree

namespace ChristmasTree

theorem drawStep_desc (c : Nat) (w : Int) (s : Strip) (led : Int) :
    (drawStep c w s led).writes = s.writes ++ drawWrites c led ∧
    (drawStep c w s led).buf = applyWrites s.buf (drawWrites c led) ∧
    (drawStep c w s led).frames = s.frames ++ [(applyWrites s.buf (drawWrites c led), w)] := by
  obtain ⟨hw, hb, hfr⟩ := foldl_set_desc ((pyRangeRev led (max (led - 10) 0)).enum)
    (fun s p => set_pixel_color s p.2 c (((10 - (p.1 : Int) : Int) : Rat) / 10))
    (fun p => (p.2, alter_brightness c (((10 - (p.1 : Int) : Int) : Rat) / 10)))
    (fun s p => rfl) s
  simp only [set_pixel_color, setPixelColor] at hw hb hfr
  simp only [drawStep, drawWrites]
  by_cases hlb : max (led - 10) 0 > 0
  · simp only [if_pos hlb, show_with_delay, set_pixel_color, setPixelColor]
    refine ⟨?_, ?_, ?_⟩
    · rw [hw, List.append_assoc]
    · rw [hb, applyWrites_append]
      rfl
    · rw [hfr, hb, applyWrites_append]
      rfl
  · simp only [if_neg hlb, show_with_delay, set_pixel_color, setPixelColor, List.append_nil]
    exact ⟨hw, hb, by rw [hfr, hb]⟩

theorem vaporStep_desc (N : Nat) (c trail tc : Nat) (w : Int) (s : Strip) (led : Int)
    (h : 0 ≤ led) :
    (vaporStep N c trail tc w s led).writes = s.writes ++ vaporWrites N c trail tc led ∧
    (vaporStep N c trail tc w s led).buf = applyWrites s.buf (vaporWrites N c trail tc led) ∧
    (vaporStep N c trail tc w s led).frames =
      s.frames ++ [(applyWrites s.buf (vaporWrites N c trail tc led), w)] := by
  obtain ⟨hw, hb, hfr⟩ := foldl_set_desc ((pyRange led (led + trail)).enum)
    (fun s p =>
      set_pixel_color s ((led + (p.1 : Int)) % (N : Int)) c ((p.1 : Rat) / (trail : Rat)))
    (fun p =>
      ((led + (p.1 : Int)) % (N : Int), alter_brightness c ((p.1 : Rat) / (trail : Rat))))
    (fun s p => rfl) s
  simp only [set_pixel_color, setPixelColor] at hw hb hfr
  simp only [vaporStep, vaporWrites, ge_iff_le, if_pos h, show_with_delay, set_pixel_color,
    setPixelColor]
  refine ⟨?_, ?_, ?_⟩
  · rw [hw, List.append_assoc]
  · rw [hb, applyWrites_append]
    rfl
  · rw [hfr, hb, applyWrites_append]
    rfl

theorem drawWrites_eq (c : Nat) (led : Int) :
    drawWrites c led =
      ((List.range (led - max (led - 10) 0).toNat).map
        fun j : Nat =>
          ((led - (j : Int)), alter_brightness c (((10 - (j : Int) : Int) : Rat) / 10))) ++
      (if max (led - 10) 0 > 0 then [(max (led - 10) 0, alter_brightness Colors.NONE 1)]
        else []) := by
  unfold drawWrites pyRangeRev
  rw [enum_map_range, List.map_map]
  rfl

theorem vaporWrites_eq (N : Nat) (c trail tc : Nat) (led : Int) :
    vaporWrites N c trail tc led =
      ((List.range trail).map
        fun o : Nat =>
          ((led + (o : Int)) % (N : Int), alter_brightness c ((o : Rat) / (trail : Rat)))) ++
      [(led, alter_brightness tc 1)] := by
  unfold vaporWrites pyRange
  rw [show ((led + (trail : Int)) - led).toNat = trail by omega, enum_map_range, List.map_map]
  rfl

theorem drawWrites_bound (c : Nat) (led : Int) :
    ∀ x ∈ drawWrites c led, 1 ≤ x.1 ∧ x.1 ≤ led := by
  intro x hx
  rw [drawWrites_eq] at hx
  have hmax := max_choice (led - 10) (0 : Int)
  simp only [List.mem_append, List.mem_map, List.mem_range] at hx
  rcases hx with ⟨j, hj, rfl⟩ | hx
  · constructor <;> omega
  · by_cases hlb : max (led - 10) 0 > 0
    · rw [if_pos hlb] at hx
      simp only [List.mem_singleton] at hx
      subst hx
      constructor <;> omega
    · rw [if_neg hlb] at hx
      simp at hx

theorem vaporWrites_bound {N : Nat} (c trail tc : Nat) {led : Int}
    (hled : 0 ≤ led) (hledN : led < (N : Int)) :
    ∀ x ∈ vaporWrites N c trail tc led, 0 ≤ x.1 ∧ x.1 < (N : Int) := by
  intro x hx
  have hN : (0 : Int) < N := lt_of_le_of_lt hled hledN
  rw [vaporWrites_eq] at hx
  simp only [List.mem_append, List.mem_map, List.mem_range, List.mem_singleton] at hx
  rcases hx with ⟨o, ho, rfl⟩ | hx
  · exact ⟨Int.emod_nonneg _ (by omega), Int.emod_lt_of_pos _ hN⟩
  · subst hx
    exact ⟨hled, hledN⟩

theorem writes_bound_foldl {α : Type} (l : List α) (f : Strip → α → Strip)
    (P : Int × Int → Prop) :
    (∀ t a, a ∈ l → ∀ x ∈ (f t a).writes, x ∈ t.writes ∨ P x) →
    ∀ s : Strip, ∀ x ∈ (l.foldl f s).writes, x ∈ s.writes ∨ P x := by
  induction l with
  | nil =>
    intro _ s x hx
    exact Or.inl hx
  | cons a l ih =>
    intro hstep s x hx
    rcases ih (fun t b hb => hstep t b (List.mem_cons_of_mem _ hb)) (f s a) x hx with h | h
    · exact hstep s a (List.mem_cons_self _ _) x h
    · exact Or.inr h

end ChristmasTree

namespace ChristmasTree

theorem draw_and_erase_eq (N : Nat) (dc er : Nat) (w : Int) (s : Strip) :
    draw_and_erase N dc er w s =
      (pyRangeRev N 0).foldl (drawStep dc w) ((pyRange 0 N).foldl (drawStep er w) s) := by
  simp only [draw_and_erase, List.foldl_cons, List.foldl_nil]
  norm_num

theorem single_color_writes_bound (N : Nat) (c : Nat) (w : Int) (s : Strip) :
    ∀ x ∈ (single_color N c w s).writes, x ∈ s.writes ∨ (0 ≤ x.1 ∧ x.1 < (N : Int)) := by
  intro x hx
  obtain ⟨hw, _, _⟩ := foldl_set_desc (pyRange 0 N)
    (fun s i => set_pixel_color s i c 1) (fun i => (i, alter_brightness c 1))
    (fun s i => rfl) s
  simp only [single_color, show_with_delay] at hx
  rw [hw] at hx
  rcases List.mem_append.mp hx with h | h
  · exact Or.inl h
  · obtain ⟨i, hi, rfl⟩ := List.mem_map.mp h
    have hm := mem_pyRange.mp hi
    exact Or.inr ⟨hm.1, hm.2⟩

theorem alternating_writes_bound (N : Nat) (hN : 2 ∣ N) (c1 c2 : Nat) (w : Int) (s : Strip) :
    ∀ x ∈ (alternating_colors N c1 c2 w s).writes,
      x ∈ s.writes ∨ (0 ≤ x.1 ∧ x.1 < (N : Int)) := by
  intro x hx
  simp only [alternating_colors, show_with_delay] at hx
  refine writes_bound_foldl (pyRangeStep N 2) _ (fun y => 0 ≤ y.1 ∧ y.1 < (N : Int)) ?_ s x hx
  intro t a ha y hy
  obtain ⟨i, rfl, hi⟩ := mem_pyRangeStep ha
  obtain ⟨m, rfl⟩ := hN
  simp only [set_pixel_color, setPixelColor, List.mem_append, List.mem_singleton] at hy
  rcases hy with (hy | hy) | hy
  · exact Or.inl hy
  · subst hy
    refine Or.inr ⟨by positivity, ?_⟩
    simp only
    omega
  · subst hy
    refine Or.inr ⟨by positivity, ?_⟩
    simp only
    omega

theorem pulse_writes_bound (N : Nat) (c : Nat) (w : Int) (s : Strip) :
    ∀ x ∈ (pulse N c w s).writes, x ∈ s.writes ∨ (0 ≤ x.1 ∧ x.1 < (N : Int)) := by
  have step : ∀ (t : Strip) (br : Int),
      ∀ y ∈ (show_with_delay
        ((pyRange 0 N).foldl (fun s i => set_pixel_color s i c ((br : Rat) / 10)) t)
        w).writes,
      y ∈ t.writes ∨ (0 ≤ y.1 ∧ y.1 < (N : Int)) := by
    intro t br y hy
    obtain ⟨hwr, _, _⟩ := foldl_set_desc (pyRange 0 N)
      (fun s i => set_pixel_color s i c ((br : Rat) / 10))
      (fun i => (i, alter_brightness c ((br : Rat) / 10))) (fun s i => rfl) t
    simp only [show_with_delay] at hy
    rw [hwr] at hy
    rcases List.mem_append.mp hy with h | h
    · exact Or.inl h
    · obtain ⟨i, hi, rfl⟩ := List.mem_map.mp h
      have hm := mem_pyRange.mp hi
      exact Or.inr ⟨hm.1, hm.2⟩
  intro x hx
  simp only [pulse] at hx
  rcases writes_bound_foldl (pyRangeRev 10 1) _ _ (fun t a _ => step t a) _ x hx with h | h
  · rcases writes_bound_foldl (pyRange 1 10) _ _ (fun t a _ => step t a) s x h with h2 | h2
    · exact Or.inl h2
    · exact Or.inr h2
  · exact Or.inr h

theorem pulse_between_writes_bound (N : Nat) (cs : List Nat) (w : Int) (s : Strip) :
    ∀ x ∈ (pulse_between N cs w s).writes, x ∈ s.writes ∨ (0 ≤ x.1 ∧ x.1 < (N : Int)) := by
  intro x hx
  simp only [pulse_between] at hx
  exact writes_bound_foldl cs _ _ (fun t a _ => pulse_writes_bound N a w t) s x hx

theorem christmas_writes_bound (N : Nat) (hN : 3 ∣ N) (w : Int) (s : Strip) :
    ∀ x ∈ (christmas_colors N w s).writes, x ∈ s.writes ∨ (0 ≤ x.1 ∧ x.1 < (N : Int)) := by
  intro x hx
  simp only [christmas_colors, show_with_delay] at hx
  refine writes_bound_foldl (pyRangeStep N 3) _ (fun y => 0 ≤ y.1 ∧ y.1 < (N : Int)) ?_ s x hx
  intro t a ha y hy
  obtain ⟨i, rfl, hi⟩ := mem_pyRangeStep ha
  obtain ⟨m, rfl⟩ := hN
  simp only [set_pixel_color, setPixelColor, List.mem_append, List.mem_singleton] at hy
  rcases hy with ((hy | hy) | hy) | hy
  · exact Or.inl hy
  · subst hy
    refine Or.inr ⟨by positivity, ?_⟩
    simp only
    omega
  · subst hy
    refine Or.inr ⟨by positivity, ?_⟩
    simp only
    omega
  · subst hy
    refine Or.inr ⟨by positivity, ?_⟩
    simp only
    omega

theorem vapor_trail_writes_bound (N : Nat) (c trail tc : Nat) (w : Int) (s : Strip) :
    ∀ x ∈ (vapor_trail N c trail tc w s).writes,
      x ∈ s.writes ∨ (0 ≤ x.1 ∧ x.1 < (N : Int)) := by
  intro x hx
  simp only [vapor_trail] at hx
  refine writes_bound_foldl (pyRange 0 N) _ (fun y => 0 ≤ y.1 ∧ y.1 < (N : Int)) ?_ s x hx
  intro t a ha y hy
  have hm := mem_pyRange.mp ha
  obtain ⟨hw, _, _⟩ := vaporStep_desc N c trail tc w t a hm.1
  rw [hw] at hy
  rcases List.mem_append.mp hy with h | h
  · exact Or.inl h
  · exact Or.inr (vaporWrites_bound c trail tc hm.1 hm.2 y h)

theorem candy_cane_writes_bound (N : Nat) (w : Int) (s : Strip) :
    ∀ x ∈ (candy_cane N w s).writes, x ∈ s.writes ∨ (0 ≤ x.1 ∧ x.1 < (N : Int)) := by
  intro x hx
  simp only [candy_cane] at hx
  rcases vapor_trail_writes_bound N Colors.CRYSTAL_RED 10 Colors.PURE_WHITE w _ x hx with h | h
  · simp only [show_with_delay] at h
    obtain ⟨hw, _, _⟩ := foldl_set_desc (pyRange 0 N)
      (fun s i => set_pixel_color s i Colors.PURE_WHITE 1)
      (fun i => (i, alter_brightness Colors.PURE_WHITE 1)) (fun s i => rfl) s
    rw [hw] at h
    rcases List.mem_append.mp h with h2 | h2
    · exact Or.inl h2
    · obtain ⟨i, hi, rfl⟩ := List.mem_map.mp h2
      have hm := mem_pyRange.mp hi
      exact Or.inr ⟨hm.1, hm.2⟩
  · exact Or.inr h

theorem draw_and_erase_writes_bound (N : Nat) (dc er : Nat) (w : Int) (s : Strip) :
    ∀ x ∈ (draw_and_erase N dc er w s).writes,
      x ∈ s.writes ∨ (1 ≤ x.1 ∧ x.1 ≤ (N : Int)) := by
  intro x hx
  rw [draw_and_erase_eq] at hx
  have hstep : ∀ (c : Nat) (bound : Int) (t : Strip) (a : Int), a ≤ bound →
      ∀ y ∈ (drawStep c w t a).writes, y ∈ t.writes ∨ (1 ≤ y.1 ∧ y.1 ≤ bound) := by
    intro c bound t a hab y hy
    obtain ⟨hw, _, _⟩ := drawStep_desc c w t a
    rw [hw] at hy
    rcases List.mem_append.mp hy with h | h
    · exact Or.inl h
    · have hb := drawWrites_bound c a y h
      exact Or.inr ⟨hb.1, le_trans hb.2 hab⟩
  rcases writes_bound_foldl (pyRangeRev (N : Int) 0) _ _
    (fun t a ha => hstep dc (N : Int) t a (mem_pyRangeRev.mp ha).2) _ x hx with h | h
  · rcases writes_bound_foldl (pyRange 0 (N : Int)) _ _
      (fun t a ha => hstep er (N : Int) t a (le_of_lt (mem_pyRange.mp ha).2)) s x h with h2 | h2
    · exact Or.inl h2
    · exact Or.inr h2
  · exact Or.inr h

end ChristmasTree

namespace ChristmasTree

theorem rat_floor_eq (q : Rat) : q.floor = ⌊q⌋ :=
  (Rat.floor_def' q).trans Rat.floor_def.symm

theorem pyInt_of_nonneg {q : Rat} (h : 0 ≤ q) : pyInt q = ⌊q⌋ := by
  rw [pyInt, if_pos h, rat_floor_eq]

theorem pyInt_natCast (n : Nat) : pyInt (n : Rat) = (n : Int) := by
  rw [pyInt_of_nonneg (by positivity), Int.floor_natCast]

theorem and_255_eq_mod (x : Nat) : x &&& 255 = x % 256 := by
  have h := Nat.and_pow_two_sub_one_eq_mod x 8
  norm_num at h
  exact h

theorem redChannel_eq (c : Nat) : c >>> 16 &&& 0xFF = c / 65536 % 256 := by
  rw [Nat.shiftRight_eq_div_pow, and_255_eq_mod]

theorem greenChannel_eq (c : Nat) : c >>> 8 &&& 0xFF = c / 256 % 256 := by
  rw [Nat.shiftRight_eq_div_pow, and_255_eq_mod]

theorem blueChannel_eq (c : Nat) : c &&& 0xFF = c % 256 :=
  and_255_eq_mod c

theorem color_channels_pack {c : Nat} (h : c < 16777216) :
    Color ((c >>> 16 &&& 0xFF : Nat) : Int) ((c >>> 8 &&& 0xFF : Nat) : Int)
      ((c &&& 0xFF : Nat) : Int) = (c : Int) := by
  rw [Color, redChannel_eq, greenChannel_eq, blueChannel_eq]
  push_cast
  omega

theorem alter_brightness_one {c : Nat} (h : c < 16777216) :
    alter_brightness c 1 = (c : Int) := by
  unfold alter_brightness
  rw [mul_one, mul_one, mul_one, pyInt_natCast, pyInt_natCast, pyInt_natCast]
  exact color_channels_pack h

theorem color_extract {r g b : Int} (hr0 : 0 ≤ r) (hr : r < 256) (hg0 : 0 ≤ g) (hg : g < 256)
    (hb0 : 0 ≤ b) (hbl : b < 256) :
    0 ≤ Color r g b ∧ Color r g b < 16777216 ∧
    ((Color r g b).toNat >>> 16 &&& 0xFF : Nat) = r.toNat ∧
    ((Color r g b).toNat >>> 8 &&& 0xFF : Nat) = g.toNat ∧
    ((Color r g b).toNat &&& 0xFF : Nat) = b.toNat := by
  rw [Color, redChannel_eq, greenChannel_eq, blueChannel_eq]
  refine ⟨by omega, by omega, ?_, ?_, ?_⟩ <;> omega

end ChristmasTree

namespace ChristmasTree

theorem pyRange_zero_natCast (N : Nat) :
    pyRange 0 (N : Int) = (List.range N).map fun i : Nat => (i : Int) := by
  simp [pyRange]

theorem applyWrites_fillRange (b : List Int) (N : Nat) (v : Int) (h : b.length = N) :
    applyWrites b ((List.range N).map fun o : Nat => ((o : Int), v)) = List.replicate N v := by
  apply List.ext_getElem?
  intro j
  rcases Nat.lt_or_ge j N with hj | hj
  · have hq := getElem?_applyWrites_range b N (fun o : Nat => (o : Int)) (fun _ => v) hj
      (fun o _ hne hc => hne (Nat.cast_injective hc))
      (show (0 : Int) ≤ (j : Int) by positivity)
      (show ((j : Nat) : Int) < (b.length : Int) by omega)
    rw [show (((j : Nat) : Int)).toNat = j from rfl] at hq
    rw [hq, List.getElem?_replicate, if_pos hj]
  · have hne : ∀ w ∈ (List.range N).map fun o : Nat => ((o : Int), v), w.1 ≠ (j : Int) := by
      intro w hw
      obtain ⟨o, ho, rfl⟩ := List.mem_map.mp hw
      simp only [List.mem_range] at ho
      show ((o : Nat) : Int) ≠ ((j : Nat) : Int)
      omega
    rw [getElem?_applyWrites_ne hne, List.getElem?_eq_none (by omega),
      List.getElem?_eq_none (by simpa using hj)]

theorem pulse_fill_desc (N : Nat) (c : Nat) (w : Int) (br : Int) (s : Strip)
    (h : s.buf.length = N) :
    (show_with_delay ((pyRange 0 (N : Int)).foldl
        (fun s i => set_pixel_color s i c ((br : Rat) / 10)) s) w).buf
      = List.replicate N (alter_brightness c ((br : Rat) / 10)) ∧
    (show_with_delay ((pyRange 0 (N : Int)).foldl
        (fun s i => set_pixel_color s i c ((br : Rat) / 10)) s) w).frames
      = s.frames ++ [(List.replicate N (alter_brightness c ((br : Rat) / 10)), w)] := by
  obtain ⟨_, hb, hfr⟩ := foldl_set_desc (pyRange 0 (N : Int))
    (fun s i => set_pixel_color s i c ((br : Rat) / 10))
    (fun i => (i, alter_brightness c ((br : Rat) / 10))) (fun s i => rfl) s
  have hmap : (pyRange 0 (N : Int)).map (fun i => (i, alter_brightness c ((br : Rat) / 10)))
      = (List.range N).map fun o : Nat => ((o : Int), alter_brightness c ((br : Rat) / 10)) := by
    rw [pyRange_zero_natCast, List.map_map]
    rfl
  rw [hmap] at hb
  have hfill := applyWrites_fillRange s.buf N (alter_brightness c ((br : Rat) / 10)) h
  constructor
  · simp only [show_with_delay]
    rw [hb, hfill]
  · simp only [show_with_delay]
    rw [hfr, hb, hfill]

theorem pulse_ramp (N : Nat) (c : Nat) (w : Int) (bs : List Int) (s : Strip)
    (h : s.buf.length = N) :
    ((bs.foldl (fun s (brightness : Int) => show_with_delay
        ((pyRange 0 (N : Int)).foldl
          (fun s i => set_pixel_color s i c ((brightness : Rat) / 10)) s) w) s).frames
      = s.frames ++ bs.map fun br : Int =>
          (List.replicate N (alter_brightness c ((br : Rat) / 10)), w)) ∧
    (bs.foldl (fun s (brightness : Int) => show_with_delay
        ((pyRange 0 (N : Int)).foldl
          (fun s i => set_pixel_color s i c ((brightness : Rat) / 10)) s) w) s).buf.length
      = N := by
  induction bs generalizing s with
  | nil => exact ⟨by simp, h⟩
  | cons br bs ih =>
    obtain ⟨hb1, hf1⟩ := pulse_fill_desc N c w br s h
    have hlen1 : (show_with_delay ((pyRange 0 (N : Int)).foldl
        (fun s i => set_pixel_color s i c ((br : Rat) / 10)) s) w).buf.length = N := by
      rw [hb1, List.length_replicate]
    obtain ⟨ih1, ih2⟩ := ih _ hlen1
    refine ⟨?_, by rw [List.foldl_cons]; exact ih2⟩
    rw [List.foldl_cons, ih1, hf1, List.map_cons, List.append_assoc]
    rfl

end ChristmasTree

namespace ChristmasTree

theorem pyRangeStep3_succ (m : Nat) :
    pyRangeStep (3 * m + 3) 3 = pyRangeStep (3 * m) 3 ++ [((3 * m : Nat) : Int)] := by
  simp only [pyRangeStep]
  rw [show (3 * m + 3 + 3 - 1) / 3 = m + 1 by omega, show (3 * m + 3 - 1) / 3 = m by omega,
    List.range_succ, List.map_append]
  rfl

theorem bufWrite3_getElem? (B : List Int) (i : Nat) (v1 v2 v3 : Int) (j : Nat) :
    (bufWrite (bufWrite (bufWrite B (i : Int) v1) ((i : Int) + 1) v2) ((i : Int) + 2) v3)[j]? =
      if j = i ∧ j < B.length then some v1
      else if j = i + 1 ∧ j < B.length then some v2
      else if j = i + 2 ∧ j < B.length then some v3
      else B[j]? := by
  have hl1 : (bufWrite B (i : Int) v1).length = B.length := length_bufWrite _ _ _
  have hl2 : (bufWrite (bufWrite B (i : Int) v1) ((i : Int) + 1) v2).length = B.length := by
    rw [length_bufWrite, hl1]
  by_cases h1 : j = i ∧ j < B.length
  · obtain ⟨rfl, hlt⟩ := h1
    rw [if_pos ⟨rfl, hlt⟩, getElem?_bufWrite_ne (by omega), getElem?_bufWrite_ne (by omega)]
    have := getElem?_bufWrite_self B v1 (j : Int) (by positivity) (by omega)
    rwa [show ((j : Nat) : Int).toNat = j from rfl] at this
  · rw [if_neg h1]
    by_cases h2 : j = i + 1 ∧ j < B.length
    · obtain ⟨rfl, hlt⟩ := h2
      rw [if_pos ⟨rfl, hlt⟩, getElem?_bufWrite_ne (by omega)]
      have := getElem?_bufWrite_self (bufWrite B (i : Int) v1) v2
        ((i : Int) + 1) (by positivity) (by omega)
      rwa [show ((i : Int) + 1).toNat = i + 1 by omega] at this
    · rw [if_neg h2]
      by_cases h3 : j = i + 2 ∧ j < B.length
      · obtain ⟨rfl, hlt⟩ := h3
        rw [if_pos ⟨rfl, hlt⟩]
        have := getElem?_bufWrite_self
          (bufWrite (bufWrite B (i : Int) v1) ((i : Int) + 1) v2) v3
          ((i : Int) + 2) (by positivity) (by omega)
        rwa [show ((i : Int) + 2).toNat = i + 2 by omega] at this
      · rw [if_neg h3]
        by_cases hlen : j < B.length
        · rw [getElem?_bufWrite_ne (by omega), getElem?_bufWrite_ne (by omega),
            getElem?_bufWrite_ne (by omega)]
        · have hl3 : (bufWrite (bufWrite (bufWrite B (i : Int) v1) ((i : Int) + 1) v2)
              ((i : Int) + 2) v3).length = B.length := by
            simp only [length_bufWrite]
          rw [List.getElem?_eq_none (by omega), List.getElem?_eq_none (by omega)]

theorem christmas_fill (m : Nat) (s : Strip) :
    (∀ j : Nat,
      ((pyRangeStep (3 * m) 3).foldl
        (fun s i =>
          let s := set_pixel_color s i Colors.PURE_WHITE (4 / 10 : Rat)
          let s := set_pixel_color s (i + 1) Colors.CRYSTAL_RED (4 / 10 : Rat)
          set_pixel_color s (i + 2) Colors.CRYSTAL_GREEN (4 / 10 : Rat)) s).buf[j]? =
        (if j < 3 * m ∧ j < s.buf.length
          then some (alter_brightness (chrColor (j % 3)) (4 / 10 : Rat))
          else s.buf[j]?)) ∧
    ((pyRangeStep (3 * m) 3).foldl
        (fun s i =>
          let s := set_pixel_color s i Colors.PURE_WHITE (4 / 10 : Rat)
          let s := set_pixel_color s (i + 1) Colors.CRYSTAL_RED (4 / 10 : Rat)
          set_pixel_color s (i + 2) Colors.CRYSTAL_GREEN (4 / 10 : Rat)) s).buf.length
      = s.buf.length ∧
    ((pyRangeStep (3 * m) 3).foldl
        (fun s i =>
          let s := set_pixel_color s i Colors.PURE_WHITE (4 / 10 : Rat)
          let s := set_pixel_color s (i + 1) Colors.CRYSTAL_RED (4 / 10 : Rat)
          set_pixel_color s (i + 2) Colors.CRYSTAL_GREEN (4 / 10 : Rat)) s).frames
      = s.frames := by
  induction m with
  | zero =>
    refine ⟨fun j => ?_, rfl, rfl⟩
    rw [if_neg (by omega)]
    rfl
  | succ m ih =>
    obtain ⟨ihj, ihlen, ihfr⟩ := ih
    rw [show 3 * (m + 1) = 3 * m + 3 by ring, pyRangeStep3_succ, List.foldl_append,
      List.foldl_cons, List.foldl_nil]
    simp only [set_pixel_color, setPixelColor] at ihj ihlen ihfr ⊢
    refine ⟨fun j => ?_, by simp only [length_bufWrite, ihlen], ihfr⟩
    rw [bufWrite3_getElem?, ihlen]
    by_cases h1 : j = 3 * m ∧ j < s.buf.length
    · rw [if_pos h1, if_pos (by omega)]
      obtain ⟨rfl, _⟩ := h1
      rw [show 3 * m % 3 = 0 by omega]
      rfl
    · rw [if_neg h1]
      by_cases h2 : j = 3 * m + 1 ∧ j < s.buf.length
      · rw [if_pos h2, if_pos (by omega)]
        obtain ⟨rfl, _⟩ := h2
        rw [show (3 * m + 1) % 3 = 1 by omega]
        rfl
      · rw [if_neg h2]
        by_cases h3 : j = 3 * m + 2 ∧ j < s.buf.length
        · rw [if_pos h3, if_pos (by omega)]
          obtain ⟨rfl, _⟩ := h3
          rw [show (3 * m + 2) % 3 = 2 by omega]
          rfl
        · rw [if_neg h3, ihj j]
          by_cases h4 : j < 3 * m ∧ j < s.buf.length
          · rw [if_pos h4, if_pos (by omega)]
          · rw [if_neg h4, if_neg (by omega)]

end ChristmasTree

namespace ChristmasTree

theorem reaches_frames_append {s t : Strip} (h : Reaches s t) :
    ∃ fs, t.frames = s.frames ++ fs := by
  induction h with
  | refl => exact ⟨[], by simp⟩
  | set t' n c _ ih =>
    obtain ⟨fs, hfs⟩ := ih
    exact ⟨fs, by simpa [setPixelColor] using hfs⟩
  | flush t' w _ ih =>
    obtain ⟨fs, hfs⟩ := ih
    exact ⟨fs ++ [(t'.buf, w)], by simp [show_with_delay, hfs]⟩

theorem foldl_frames_indexed (f : Strip → Int → Strip) (W : Int → List (Int × Int)) (w : Int)
    (P : Int × Int → Prop)
    (hf : ∀ t (a : Int), 0 ≤ a →
      (f t a).buf = applyWrites t.buf (W a) ∧
      (f t a).frames = t.frames ++ [((f t a).buf, w)])
    (hW : ∀ a : Int, 0 ≤ a → ∀ x ∈ W a, P x)
    (k : Nat) (s : Strip) (hfr : s.frames = []) :
    ((pyRange 0 (k : Int)).foldl f s).frames.length = k ∧
    (∃ wsAll, ((pyRange 0 (k : Int)).foldl f s).buf = applyWrites s.buf wsAll ∧
      ∀ x ∈ wsAll, P x) ∧
    ∀ h : Nat, h < k → ∃ ws0,
      ((pyRange 0 (k : Int)).foldl f s).frames[h]? =
        some (applyWrites (applyWrites s.buf ws0) (W (h : Int)), w) ∧
      ∀ x ∈ ws0, P x := by
  induction k with
  | zero =>
    refine ⟨?_, ⟨[], rfl, by simp⟩, fun h hh => absurd hh (by omega)⟩
    simp [pyRange, hfr]
  | succ k ih =>
    obtain ⟨ih1, ⟨wsAll, ihb, ihP⟩, ih3⟩ := ih
    rw [show ((k + 1 : Nat) : Int) = (k : Int) + 1 by push_cast; ring,
      pyRange_succ (by positivity), List.foldl_append, List.foldl_cons, List.foldl_nil]
    obtain ⟨hb, hfr2⟩ := hf ((pyRange 0 (k : Int)).foldl f s) (k : Int) (by positivity)
    refine ⟨?_, ?_, ?_⟩
    · rw [hfr2, List.length_append, ih1]
      rfl
    · refine ⟨wsAll ++ W (k : Int), ?_, ?_⟩
      · rw [hb, ihb, applyWrites_append]
      · intro x hx
        rcases List.mem_append.mp hx with h | h
        · exact ihP x h
        · exact hW (k : Int) (by positivity) x h
    · intro h hh
      rcases Nat.lt_or_ge h k with hlt | hge
      · obtain ⟨ws0, hbq, hP0⟩ := ih3 h hlt
        refine ⟨ws0, ?_, hP0⟩
        rw [hfr2, List.getElem?_append_left (by omega)]
        exact hbq
      · have hhe : h = k := by omega
        subst hhe
        refine ⟨wsAll, ?_, ihP⟩
        rw [hfr2, hb, ihb, List.getElem?_append_right (by omega)]
        rw [ih1]
        simp

theorem foldl_drawStep_writes (c : Nat) (w : Int) (l : List Int) (s : Strip) :
    (l.foldl (drawStep c w) s).writes = s.writes ++ (l.map (drawWrites c)).flatten := by
  induction l generalizing s with
  | nil => simp
  | cons a l ih =>
    rw [List.foldl_cons, ih, List.map_cons, List.flatten_cons, (drawStep_desc c w s a).1,
      List.append_assoc]

theorem drawFrame_query (c : Nat) (b : List Int) (k : Nat) (hk : 11 ≤ k) (hlen : k < b.length) :
    (applyWrites b (drawWrites c (k : Int)))[k - 10]? =
      some (alter_brightness Colors.NONE 1) ∧
    ∀ j : Nat, j ≤ 9 → (applyWrites b (drawWrites c (k : Int)))[k - j]? =
      some (alter_brightness c (((10 - (j : Int) : Int) : Rat) / 10)) := by
  have hmax : max ((k : Int) - 10) 0 = (k : Int) - 10 := max_eq_left (by omega)
  have h10 : ((k : Int) - ((k : Int) - 10)).toNat = 10 := by omega
  rw [drawWrites_eq, hmax, h10, if_pos (by omega)]
  constructor
  · rw [applyWrites_append, applyWrites_cons]
    have hq := getElem?_bufWrite_self (applyWrites b ((List.range 10).map fun j : Nat =>
        ((k : Int) - (j : Int),
          alter_brightness c (((10 - (j : Int) : Int) : Rat) / 10))))
      (alter_brightness Colors.NONE 1) ((k : Int) - 10)
      (by omega) (by rw [length_applyWrites]; omega)
    rw [show ((k : Int) - 10).toNat = k - 10 by omega] at hq
    exact hq
  · intro j hj
    rw [applyWrites_append, applyWrites_cons]
    have hne : (k : Int) - 10 ≠ ((k - j : Nat) : Int) := by omega
    rw [show applyWrites (bufWrite (applyWrites b ((List.range 10).map fun j : Nat =>
        ((k : Int) - (j : Int),
          alter_brightness c (((10 - (j : Int) : Int) : Rat) / 10))))
        ((k : Int) - 10) (alter_brightness Colors.NONE 1)) [] =
      bufWrite (applyWrites b ((List.range 10).map fun j : Nat =>
        ((k : Int) - (j : Int),
          alter_brightness c (((10 - (j : Int) : Int) : Rat) / 10))))
        ((k : Int) - 10) (alter_brightness Colors.NONE 1) from rfl,
      getElem?_bufWrite_ne hne]
    have hinj : ∀ o, o < 10 → o ≠ j → ((k : Int) - (o : Int)) ≠ ((k : Int) - (j : Int)) := by
      intro o _ hne2 hc
      exact hne2 (by omega)
    have hq := getElem?_applyWrites_range b 10
      (fun o : Nat => (k : Int) - (o : Int))
      (fun o : Nat => alter_brightness c (((10 - (o : Int) : Int) : Rat) / 10))
      (show j < 10 by omega) hinj
      (show (0 : Int) ≤ (k : Int) - (j : Int) by omega)
      (show (k : Int) - (j : Int) < (b.length : Int) by omega)
    rw [show ((k : Int) - (j : Int)).toNat = k - j by omega] at hq
    exact hq

end ChristmasTree

namespace ChristmasTree

theorem applyWrites_singleton (b : List Int) (x : Int × Int) :
    applyWrites b [x] = bufWrite b x.1 x.2 := rfl

theorem emod_shift_inj {N : Nat} {h : Int} (a b : Nat) (haN : a < N) (hbN : b < N)
    (heq : (h + (a : Int)) % (N : Int) = (h + (b : Int)) % (N : Int)) : a = b := by
  have h0 : ((h + (a : Int)) - (h + (b : Int))) % (N : Int) = 0 :=
    Int.emod_eq_emod_iff_emod_sub_eq_zero.mp heq
  have hd : (N : Int) ∣ ((a : Int) - (b : Int)) := by
    have hs : (h + (a : Int)) - (h + (b : Int)) = (a : Int) - (b : Int) := by ring
    rw [hs] at h0
    exact Int.dvd_of_emod_eq_zero h0
  by_cases hab : a = b
  · exact hab
  · exfalso
    have hpos : 0 < |(a : Int) - (b : Int)| := abs_pos.mpr (by omega)
    have hle : (N : Int) ≤ |(a : Int) - (b : Int)| :=
      Int.le_of_dvd hpos ((dvd_abs _ _).mpr hd)
    rcases abs_cases ((a : Int) - (b : Int)) with ⟨he, _⟩ | ⟨he, _⟩ <;> omega

theorem natCast_mod_emod (h o N : Nat) :
    (((h + o) % N : Nat) : Int) = ((h : Int) + (o : Int)) % (N : Int) := by
  push_cast
  rfl

theorem vaporFrame_query (N : Nat) (c t tc : Nat) (b : List Int) (h : Nat)
    (hlen : b.length = N) (hh : h < N) (ht : t ≤ N) (htc : tc < 16777216) :
    (∀ o : Nat, o < t → 0 < o →
      (applyWrites b (vaporWrites N c t tc (h : Int)))[((h + o) % N : Nat)]? =
        some (alter_brightness c ((o : Rat) / (t : Rat)))) ∧
    (applyWrites b (vaporWrites N c t tc (h : Int)))[h]? = some ((tc : Int)) := by
  have hN : 0 < N := by omega
  rw [vaporWrites_eq]
  have hsingle : applyWrites (applyWrites b ((List.range t).map fun o : Nat =>
        (((h : Int) + (o : Int)) % (N : Int), alter_brightness c ((o : Rat) / (t : Rat)))))
      [((h : Int), alter_brightness tc 1)] =
    bufWrite (applyWrites b ((List.range t).map fun o : Nat =>
        (((h : Int) + (o : Int)) % (N : Int), alter_brightness c ((o : Rat) / (t : Rat)))))
      ((h : Int)) (alter_brightness tc 1) := rfl
  constructor
  · intro o ho hpos
    rw [applyWrites_append, hsingle]
    have hne : (h : Int) ≠ (((h + o) % N : Nat) : Int) := by
      intro hc
      rw [natCast_mod_emod] at hc
      have hc2 : ((h : Int) + ((0 : Nat) : Int)) % (N : Int) =
          ((h : Int) + (o : Int)) % (N : Int) := by
        rw [show ((0 : Nat) : Int) = 0 from rfl, add_zero,
          Int.emod_eq_of_lt (by omega) (by omega)]
        exact hc
      have := @emod_shift_inj N (h : Int) 0 o (by omega) (by omega) hc2
      omega
    rw [getElem?_bufWrite_ne hne]
    have hinj : ∀ o2, o2 < t → o2 ≠ o →
        ((h : Int) + (o2 : Int)) % (N : Int) ≠ ((h : Int) + (o : Int)) % (N : Int) := by
      intro o2 ho2 hne2 hc
      exact hne2 (emod_shift_inj o2 o (by omega) (by omega) hc)
    have hq := getElem?_applyWrites_range b t
      (fun o2 : Nat => ((h : Int) + (o2 : Int)) % (N : Int))
      (fun o2 : Nat => alter_brightness c ((o2 : Rat) / (t : Rat)))
      ho hinj
      (show (0 : Int) ≤ ((h : Int) + (o : Int)) % (N : Int) from
        Int.emod_nonneg _ (by omega))
      (show ((h : Int) + (o : Int)) % (N : Int) < (b.length : Int) by
        rw [hlen]
        exact Int.emod_lt_of_pos _ (by omega))
    rw [show (((h : Int) + (o : Int)) % (N : Int)).toNat = (h + o) % N by
      rw [← natCast_mod_emod, Int.toNat_ofNat]] at hq
    exact hq
  · rw [applyWrites_append, hsingle, ← alter_brightness_one htc]
    have hq := getElem?_bufWrite_self
      (applyWrites b ((List.range t).map fun o : Nat =>
        (((h : Int) + (o : Int)) % (N : Int), alter_brightness c ((o : Rat) / (t : Rat)))))
      (alter_brightness tc 1) ((h : Int)) (by positivity)
      (by rw [length_applyWrites, hlen]; omega)
    rw [show ((h : Nat) : Int).toNat = h from rfl] at hq
    exact hq

end ChristmasTree

namespace ChristmasTree

/-- C4: setPixel(index, color, brightness) writes scale(color, brightness)
into slot index when 0 <= index < N, and is a no-op on the buffer (every slot
unchanged) whenever index is outside [0, N); the frame trace is untouched
either way.  The out-of-range behaviour of the underlying setPixelColor is
spec-modelled (rpi_ws281x is an external collaborator). -/
theorem C4_setPixel_spec (s : Strip) (i : Int) (c : Nat) (br : Rat) :
    ((0 ≤ i ∧ i < (s.buf.length : Int)) →
      (set_pixel_color s i c br).buf = s.buf.set i.toNat (alter_brightness c br)) ∧
    (¬(0 ≤ i ∧ i < (s.buf.length : Int)) → (set_pixel_color s i c br).buf = s.buf) ∧
    (set_pixel_color s i c br).frames = s.frames := by
  refine ⟨fun h => ?_, fun h => ?_, rfl⟩
  · simp only [set_pixel_color, setPixelColor, bufWrite, if_pos h]
  · simp only [set_pixel_color, setPixelColor, bufWrite, if_neg h]

/-- C4 witness: an in-range write at index 1 of a 3-pixel strip stores the
scaled color there, and an out-of-range call at index 5 leaves the buffer
unchanged. -/
theorem C4_setPixel_spec_witness :
    (set_pixel_color (initStrip 3 0) 1 Colors.CRYSTAL_RED 1).buf
      = (initStrip 3 0).buf.set (1 : Int).toNat (alter_brightness Colors.CRYSTAL_RED 1) ∧
    (set_pixel_color (initStrip 3 0) 5 Colors.CRYSTAL_RED 1).buf = (initStrip 3 0).buf :=
  ⟨(C4_setPixel_spec (initStrip 3 0) 1 Colors.CRYSTAL_RED 1).1 (by decide),
   (C4_setPixel_spec (initStrip 3 0) 5 Colors.CRYSTAL_RED 1).2.1 (by decide)⟩

theorem rat_ceil_eq (q : Rat) : q.ceil = ⌈q⌉ := by
  by_cases h : q.den = 1
  · have hq : ((q.num : Int) : Rat) = q := by
      rw [← Rat.num_div_den q, h]
      norm_num
    rw [show q.ceil = q.num by rw [Rat.ceil, if_pos h]]
    conv_rhs => rw [← hq]
    rw [Int.ceil_intCast]
  · have hcf : q.ceil = q.floor + 1 := by
      rw [Rat.ceil, Rat.floor, if_neg h, if_neg h]
    rw [hcf, rat_floor_eq]
    symm
    rw [Int.ceil_eq_iff]
    constructor
    · push_cast
      have h1 : ((⌊q⌋ : Int) : Rat) ≤ q := Int.floor_le q
      have h2 : ((⌊q⌋ : Int) : Rat) ≠ q := by
        intro hc
        apply h
        rw [← hc]
        exact Rat.den_intCast ⌊q⌋
      have h3 := lt_of_le_of_ne h1 h2
      calc ((⌊q⌋ : Int) : Rat) + 1 - 1 = ((⌊q⌋ : Int) : Rat) := by ring
        _ < q := h3
    · push_cast
      exact le_of_lt (Int.lt_floor_add_one q)

theorem pyInt_neg_half_255 : pyInt ((255 : Rat) * (-1 / 2)) = -127 := by
  rw [pyInt, if_neg (by norm_num), rat_ceil_eq]
  rw [Int.ceil_eq_iff]
  constructor <;> norm_num

theorem floor_neg_half_255 : ⌊(255 : Rat) * (-1 / 2)⌋ = -128 := by
  rw [Int.floor_eq_iff]
  constructor <;> norm_num

/-- C7 fails as stated: brightness outside [0,1] is accepted, but Python
int() truncates toward zero, so at brightness -1/2 the red channel of
PURE_WHITE scales to -127 while floor(255 * (-1/2)) = -128 (the packed
results differ as well); and at brightness 2 the result does not fit the
24-bit encoding of the input. -/
theorem C7_scale_floor_counterexample :
    pyInt (((Colors.PURE_WHITE >>> 16 &&& 0xFF : Nat) : Rat) * (-1 / 2)) = -127 ∧
    ⌊((Colors.PURE_WHITE >>> 16 &&& 0xFF : Nat) : Rat) * (-1 / 2)⌋ = -128 ∧
    alter_brightness Colors.PURE_WHITE (-1 / 2) ≠ Color (-128) (-128) (-128) ∧
    ¬ alter_brightness Colors.PURE_WHITE 2 < 16777216 := by
  have hch : ∀ k : Nat, k = 16 ∨ k = 8 ∨ k = 0 →
      ((Colors.PURE_WHITE >>> k &&& 0xFF : Nat) : Rat) = 255 := by
    intro k hk
    rcases hk with rfl | rfl | rfl <;>
      · rw [show (Colors.PURE_WHITE >>> _ &&& 0xFF : Nat) = 255 by decide]
        norm_num
  have h16 := hch 16 (Or.inl rfl)
  have h8 := hch 8 (Or.inr (Or.inl rfl))
  have h0 := hch 0 (Or.inr (Or.inr rfl))
  have h0' : ((Colors.PURE_WHITE &&& 0xFF : Nat) : Rat) = 255 := by
    rw [show (Colors.PURE_WHITE &&& 0xFF : Nat) = 255 by decide]
    norm_num
  refine ⟨?_, ?_, ?_, ?_⟩
  · rw [h16, pyInt_neg_half_255]
  · rw [h16, floor_neg_half_255]
  · unfold alter_brightness
    rw [h16, h8, h0', pyInt_neg_half_255]
    rw [show Color (-127) (-127) (-127) = -8355711 by norm_num [Color],
      show Color (-128) (-128) (-128) = -8421504 by norm_num [Color]]
    norm_num
  · unfold alter_brightness
    rw [h16, h8, h0']
    rw [show (255 : Rat) * 2 = ((510 : Nat) : Rat) by norm_num, pyInt_natCast]
    rw [show Color ((510 : Nat) : Int) ((510 : Nat) : Int) ((510 : Nat) : Int)
        = 33554430 by norm_num [Color]]
    norm_num

/-- C7 (amended): for every 24-bit color and every nonnegative brightness b
(still not clamped above 1), alter_brightness is exactly the packing of the
per-channel floors floor(channel * b); when moreover b ≤ 1 the result is a
valid 24-bit color whose extracted channels are exactly those floors; and
scale(C, 1.0) = C.  alter_brightness is a pure function, so it has no side
effects. -/
theorem C7_scale_floor_amended (c : Nat) (b : Rat) (hc : c < 16777216) (hb : 0 ≤ b) :
    alter_brightness c b =
      Color ⌊((c >>> 16 &&& 0xFF : Nat) : Rat) * b⌋ ⌊((c >>> 8 &&& 0xFF : Nat) : Rat) * b⌋
        ⌊((c &&& 0xFF : Nat) : Rat) * b⌋ ∧
    (b ≤ 1 →
      0 ≤ alter_brightness c b ∧ alter_brightness c b < 16777216 ∧
      ((alter_brightness c b).toNat >>> 16 &&& 0xFF : Nat)
        = ⌊((c >>> 16 &&& 0xFF : Nat) : Rat) * b⌋.toNat ∧
      ((alter_brightness c b).toNat >>> 8 &&& 0xFF : Nat)
        = ⌊((c >>> 8 &&& 0xFF : Nat) : Rat) * b⌋.toNat ∧
      ((alter_brightness c b).toNat &&& 0xFF : Nat)
        = ⌊((c &&& 0xFF : Nat) : Rat) * b⌋.toNat) ∧
    alter_brightness c 1 = (c : Int) := by
  have heq : alter_brightness c b =
      Color ⌊((c >>> 16 &&& 0xFF : Nat) : Rat) * b⌋ ⌊((c >>> 8 &&& 0xFF : Nat) : Rat) * b⌋
        ⌊((c &&& 0xFF : Nat) : Rat) * b⌋ := by
    unfold alter_brightness
    rw [pyInt_of_nonneg (by positivity), pyInt_of_nonneg (by positivity),
      pyInt_of_nonneg (by positivity)]
  refine ⟨heq, fun hb1 => ?_, alter_brightness_one hc⟩
  have hfb : ∀ ch : Nat, ch < 256 → 0 ≤ ⌊(ch : Rat) * b⌋ ∧ ⌊(ch : Rat) * b⌋ < 256 := by
    intro ch hch
    constructor
    · exact Int.floor_nonneg.mpr (by positivity)
    · have hle : (ch : Rat) * b ≤ 255 := by
        calc (ch : Rat) * b ≤ (ch : Rat) * 1 := by
              exact mul_le_mul_of_nonneg_left hb1 (by positivity)
          _ = (ch : Rat) := mul_one _
          _ ≤ 255 := by exact_mod_cast Nat.le_of_lt_succ hch
      have hf := Int.floor_le_floor hle
      have h255 : ⌊(255 : Rat)⌋ = 255 := by
        rw [show (255 : Rat) = ((255 : Int) : Rat) by norm_num, Int.floor_intCast]
      rw [h255] at hf
      omega
  have hr := hfb (c >>> 16 &&& 0xFF) (by have := @Nat.and_le_right (c >>> 16) 0xFF; omega)
  have hg := hfb (c >>> 8 &&& 0xFF) (by have := @Nat.and_le_right (c >>> 8) 0xFF; omega)
  have hbl := hfb (c &&& 0xFF) (by have := @Nat.and_le_right c 0xFF; omega)
  obtain ⟨he1, he2, he3, he4, he5⟩ :=
    color_extract hr.1 hr.2 hg.1 hg.2 hbl.1 hbl.2
  rw [heq]
  exact ⟨he1, he2, he3, he4, he5⟩

/-- C7 witness: the amended theorem applied to PURE_WHITE at brightness 2/5,
with every part evaluated on the concrete input. -/
theorem C7_scale_floor_amended_witness :
    alter_brightness Colors.PURE_WHITE (2 / 5) =
      Color ⌊((Colors.PURE_WHITE >>> 16 &&& 0xFF : Nat) : Rat) * (2 / 5)⌋
        ⌊((Colors.PURE_WHITE >>> 8 &&& 0xFF : Nat) : Rat) * (2 / 5)⌋
        ⌊((Colors.PURE_WHITE &&& 0xFF : Nat) : Rat) * (2 / 5)⌋ ∧
    ((2 : Rat) / 5 ≤ 1 →
      0 ≤ alter_brightness Colors.PURE_WHITE (2 / 5) ∧
      alter_brightness Colors.PURE_WHITE (2 / 5) < 16777216 ∧
      ((alter_brightness Colors.PURE_WHITE (2 / 5)).toNat >>> 16 &&& 0xFF : Nat)
        = ⌊((Colors.PURE_WHITE >>> 16 &&& 0xFF : Nat) : Rat) * (2 / 5)⌋.toNat ∧
      ((alter_brightness Colors.PURE_WHITE (2 / 5)).toNat >>> 8 &&& 0xFF : Nat)
        = ⌊((Colors.PURE_WHITE >>> 8 &&& 0xFF : Nat) : Rat) * (2 / 5)⌋.toNat ∧
      ((alter_brightness Colors.PURE_WHITE (2 / 5)).toNat &&& 0xFF : Nat)
        = ⌊((Colors.PURE_WHITE &&& 0xFF : Nat) : Rat) * (2 / 5)⌋.toNat) ∧
    alter_brightness Colors.PURE_WHITE 1 = (Colors.PURE_WHITE : Int) :=
  C7_scale_floor_amended Colors.PURE_WHITE (2 / 5) (by decide) (by norm_num)

end ChristmasTree

namespace ChristmasTree

theorem drawWrites_zero (c : Nat) : drawWrites c 0 = [] := by
  rw [drawWrites_eq, show ((0 : Int) - max ((0 : Int) - 10) 0).toNat = 0 by decide,
    if_neg (by decide)]
  rfl

theorem drawWrites_one (c : Nat) : drawWrites c 1 = [((1 : Int), alter_brightness c 1)] := by
  rw [drawWrites_eq]
  rw [show max ((1 : Int) - 10) 0 = 0 by decide]
  rw [show ((1 : Int) - 0).toNat = 1 by decide]
  rw [show List.range 1 = [0] from rfl, List.map_singleton, if_neg (by decide),
    List.append_nil]
  have e1 : (1 : Int) - ((0 : Nat) : Int) = 1 := by simp
  have e2 : (((10 - ((0 : Nat) : Int) : Int)) : Rat) / 10 = 1 := by norm_num
  rw [e1, e2]

theorem drawWrites_head (c : Nat) (led : Int) (h : 1 ≤ led) :
    ∃ tail, drawWrites c led = (led, alter_brightness c 1) :: tail := by
  rw [drawWrites_eq]
  have hmax := max_choice (led - 10) (0 : Int)
  have hcnt : (led - max (led - 10) 0).toNat = ((led - max (led - 10) 0).toNat - 1) + 1 := by
    rcases hmax with h1 | h1 <;> omega
  rw [hcnt, List.range_succ_eq_map, List.map_cons, List.cons_append]
  have e1 : led - ((0 : Nat) : Int) = led := by simp
  have e2 : (((10 - ((0 : Nat) : Int) : Int)) : Rat) / 10 = 1 := by norm_num
  rw [e1, e2]
  exact ⟨_, rfl⟩

theorem draw_phase2_decomp (N : Nat) (hN : 1 ≤ N) (dc er : Nat) (w : Int) (s : Strip) :
    ∃ tail, (draw_and_erase N dc er w s).writes =
      s.writes ++ (((pyRange 0 (N : Int)).map (drawWrites er)).flatten
        ++ ((N : Int), alter_brightness dc 1) :: tail) := by
  rw [draw_and_erase_eq]
  have h1 := foldl_drawStep_writes er w (pyRange 0 (N : Int)) s
  rw [pyRangeRev_cons (show (0 : Int) < (N : Int) by omega), List.foldl_cons]
  have h2 := foldl_drawStep_writes dc w (pyRangeRev ((N : Int) - 1) 0)
    (drawStep dc w ((pyRange 0 (N : Int)).foldl (drawStep er w) s) (N : Int))
  rw [h2, (drawStep_desc dc w _ (N : Int)).1, h1]
  obtain ⟨tail, htail⟩ := drawWrites_head dc (N : Int) (by omega)
  rw [htail]
  refine ⟨tail ++ (((pyRangeRev ((N : Int) - 1) 0).map (drawWrites dc)).flatten), ?_⟩
  simp [List.append_assoc]

/-- C1 fails on the code (code bug): the Python conditional
(draw_color if range_idx else eraser) selects the eraser for the upward phase
(range_idx 0 is falsy) and the draw color for the downward phase, the exact
opposite of the docstring and the spec.  Concretely, with
drawColor = CRYSTAL_BLUE and eraser = WARM_WHITE on a 12-pixel strip, the
very first setter call of the upward pass paints pixel 1 WARM_WHITE, the
whole upward pass consists of WARM_WHITE fade writes, and the first write of
the downward pass paints pixel 12 CRYSTAL_BLUE. -/
theorem C1_draw_and_erase_phase_colors_swapped :
    (draw_and_erase 12 Colors.CRYSTAL_BLUE Colors.WARM_WHITE 50
        (initStrip 12 0)).writes[0]? = some ((1 : Int), (Colors.WARM_WHITE : Int)) ∧
    (∃ tail, (draw_and_erase 12 Colors.CRYSTAL_BLUE Colors.WARM_WHITE 50
        (initStrip 12 0)).writes =
      ((pyRange 0 (12 : Int)).map (drawWrites Colors.WARM_WHITE)).flatten
        ++ ((12 : Int), (Colors.CRYSTAL_BLUE : Int)) :: tail) ∧
    (Colors.WARM_WHITE : Int) ≠ (Colors.CRYSTAL_BLUE : Int) := by
  obtain ⟨tail, htail⟩ :=
    draw_phase2_decomp 12 (by omega) Colors.CRYSTAL_BLUE Colors.WARM_WHITE 50 (initStrip 12 0)
  rw [show (initStrip 12 0).writes = [] from rfl, List.nil_append,
    show ((12 : Nat) : Int) = (12 : Int) by norm_num] at htail
  rw [alter_brightness_one (show Colors.CRYSTAL_BLUE < 16777216 by decide)] at htail
  refine ⟨?_, ⟨tail, htail⟩, by decide⟩
  rw [htail]
  rw [show pyRange 0 (12 : Int) = 0 :: 1 :: pyRange 2 12 by decide]
  rw [List.map_cons, List.map_cons, List.flatten_cons, List.flatten_cons,
    drawWrites_zero, drawWrites_one, List.nil_append,
    alter_brightness_one (show Colors.WARM_WHITE < 16777216 by decide)]
  rfl

end ChristmasTree

namespace ChristmasTree

/-- C2 fails as stated: one pulse call flushes 18 frames, not 17.  The
Python loop range(10, 1, -1) starts at brightness 10/10 = 1.0, so the down
ramp is 1.0, 0.9, ..., 0.2 (9 frames) and frame index 9 shows every pixel at
full brightness, which the claim says never happens. -/
theorem C2_pulse_17_frames_counterexample :
    (pulse 1 Colors.CRYSTAL_RED 50 (initStrip 1 0)).frames.length = 18 ∧
    (pulse 1 Colors.CRYSTAL_RED 50 (initStrip 1 0)).frames.length ≠ 17 ∧
    (pulse 1 Colors.CRYSTAL_RED 50 (initStrip 1 0)).frames[9]? =
      some ([alter_brightness Colors.CRYSTAL_RED 1], 50) := by
  obtain ⟨hf1, hl1⟩ := pulse_ramp 1 Colors.CRYSTAL_RED 50 (pyRange 1 10) (initStrip 1 0)
    (by decide)
  obtain ⟨hf2, hl2⟩ := pulse_ramp 1 Colors.CRYSTAL_RED 50 (pyRangeRev 10 1) _ hl1
  have hfr : (pulse 1 Colors.CRYSTAL_RED 50 (initStrip 1 0)).frames
      = ([1, 2, 3, 4, 5, 6, 7, 8, 9, 10, 9, 8, 7, 6, 5, 4, 3, 2] : List Int).map
          fun br : Int =>
            (List.replicate 1 (alter_brightness Colors.CRYSTAL_RED ((br : Rat) / 10)),
              (50 : Int)) := by
    simp only [pulse]
    rw [hf2, hf1, show (initStrip 1 0).frames = [] from rfl, List.nil_append,
      ← List.map_append,
      show pyRange 1 10 ++ pyRangeRev 10 1
        = ([1, 2, 3, 4, 5, 6, 7, 8, 9, 10, 9, 8, 7, 6, 5, 4, 3, 2] : List Int) by decide]
  refine ⟨by rw [hfr]; rfl, by rw [hfr]; decide, ?_⟩
  rw [hfr, List.getElem?_map,
    show ([1, 2, 3, 4, 5, 6, 7, 8, 9, 10, 9, 8, 7, 6, 5, 4, 3, 2] : List Int)[9]?
      = some 10 from rfl]
  simp only [Option.map_some']
  rw [show (((10 : Int)) : Rat) / 10 = 1 by norm_num]
  rfl

/-- C2 (amended): one call to pulse(C, waitMs) on an N-pixel strip flushes
exactly 18 frames, each with all N pixels uniformly set to C at the frame
brightness: 9 frames ramping up through 0.1, ..., 0.9, then 9 frames ramping
back down through 1.0, 0.9, ..., 0.2 (the down loop range(10, 1, -1) starts
at 10/10 = 1.0 and stops at 2/10). -/
theorem C2_pulse_frames_amended (N : Nat) (c : Nat) (w : Int) (s : Strip)
    (h : s.buf.length = N) :
    (pulse N c w s).frames = s.frames ++
      ([1, 2, 3, 4, 5, 6, 7, 8, 9, 10, 9, 8, 7, 6, 5, 4, 3, 2] : List Int).map
        fun br : Int => (List.replicate N (alter_brightness c ((br : Rat) / 10)), w) := by
  obtain ⟨hf1, hl1⟩ := pulse_ramp N c w (pyRange 1 10) s h
  obtain ⟨hf2, hl2⟩ := pulse_ramp N c w (pyRangeRev 10 1) _ hl1
  simp only [pulse]
  rw [hf2, hf1, List.append_assoc, ← List.map_append,
    show pyRange 1 10 ++ pyRangeRev 10 1
      = ([1, 2, 3, 4, 5, 6, 7, 8, 9, 10, 9, 8, 7, 6, 5, 4, 3, 2] : List Int) by decide]

/-- C2 witness: the amended frame description of a pulse call on a fresh
2-pixel strip. -/
theorem C2_pulse_frames_amended_witness :
    (pulse 2 Colors.CRYSTAL_RED 50 (initStrip 2 0)).frames = (initStrip 2 0).frames ++
      ([1, 2, 3, 4, 5, 6, 7, 8, 9, 10, 9, 8, 7, 6, 5, 4, 3, 2] : List Int).map
        fun br : Int =>
          (List.replicate 2 (alter_brightness Colors.CRYSTAL_RED ((br : Rat) / 10)), 50) :=
  C2_pulse_frames_amended 2 Colors.CRYSTAL_RED 50 (initStrip 2 0) (by decide)

end ChristmasTree

namespace ChristmasTree

/-- C3 fails as stated: draw_and_erase's second phase iterates
range(num_pixels, 0, -1), so its first head position is N itself and the very
first fade write of that frame passes index N = 150 to the pixel setter,
outside the valid range 0..149. -/
theorem C3_index_in_range_counterexample :
    (((150 : Nat) : Int), (Colors.CRYSTAL_BLUE : Int)) ∈
      (draw_and_erase 150 Colors.CRYSTAL_BLUE Colors.WARM_WHITE 50
        (initStrip 150 0)).writes ∧
    ¬ (0 ≤ (((150 : Nat) : Int)) ∧ (((150 : Nat) : Int)) < ((150 : Nat) : Int)) := by
  obtain ⟨tail, htail⟩ := draw_phase2_decomp 150 (by omega) Colors.CRYSTAL_BLUE
    Colors.WARM_WHITE 50 (initStrip 150 0)
  rw [show (initStrip 150 0).writes = [] from rfl, List.nil_append,
    alter_brightness_one (show Colors.CRYSTAL_BLUE < 16777216 by decide)] at htail
  refine ⟨?_, by decide⟩
  rw [htail]
  exact List.mem_append.mpr (Or.inr (List.mem_cons_self _ _))

/-- C3 (amended): with the pixel counts used by the top-level cycle (N even
for alternating, N divisible by 3 for christmasColors, as with N = 150),
every index passed to the pixel setter by solid fill, alternating, pulse,
pulseBetween, christmasColors, candyCane and vaporTrail lies in 0..N-1;
drawAndErase alone also passes index N (at its phase-2 head position N), and
every index it passes lies in 1..N.  Consequently one whole iteration of the
top-level cycle at N = 150 only ever passes indices in 0..150, the out-of-
range index 150 coming only from drawAndErase; the spec-modelled setter
no-ops there. -/
theorem C3_index_bounds_amended :
    (∀ (N c : Nat) (w : Int) (s : Strip), ∀ x ∈ (single_color N c w s).writes,
      x ∈ s.writes ∨ (0 ≤ x.1 ∧ x.1 < (N : Int))) ∧
    (∀ N : Nat, 2 ∣ N → ∀ (c1 c2 : Nat) (w : Int) (s : Strip),
      ∀ x ∈ (alternating_colors N c1 c2 w s).writes,
        x ∈ s.writes ∨ (0 ≤ x.1 ∧ x.1 < (N : Int))) ∧
    (∀ (N c : Nat) (w : Int) (s : Strip), ∀ x ∈ (pulse N c w s).writes,
      x ∈ s.writes ∨ (0 ≤ x.1 ∧ x.1 < (N : Int))) ∧
    (∀ (N : Nat) (cs : List Nat) (w : Int) (s : Strip),
      ∀ x ∈ (pulse_between N cs w s).writes,
        x ∈ s.writes ∨ (0 ≤ x.1 ∧ x.1 < (N : Int))) ∧
    (∀ N : Nat, 3 ∣ N → ∀ (w : Int) (s : Strip),
      ∀ x ∈ (christmas_colors N w s).writes,
        x ∈ s.writes ∨ (0 ≤ x.1 ∧ x.1 < (N : Int))) ∧
    (∀ (N : Nat) (w : Int) (s : Strip), ∀ x ∈ (candy_cane N w s).writes,
      x ∈ s.writes ∨ (0 ≤ x.1 ∧ x.1 < (N : Int))) ∧
    (∀ (N c trail tc : Nat) (w : Int) (s : Strip),
      ∀ x ∈ (vapor_trail N c trail tc w s).writes,
        x ∈ s.writes ∨ (0 ≤ x.1 ∧ x.1 < (N : Int))) ∧
    (∀ (N dc er : Nat) (w : Int) (s : Strip), ∀ x ∈ (draw_and_erase N dc er w s).writes,
      x ∈ s.writes ∨ (1 ≤ x.1 ∧ x.1 ≤ (N : Int))) ∧
    (∀ s : Strip, ∀ x ∈ (cycleOnce s).writes,
      x ∈ s.writes ∨ (0 ≤ x.1 ∧ x.1 ≤ ((150 : Nat) : Int))) := by
  refine ⟨single_color_writes_bound, fun N h2 => alternating_writes_bound N h2,
    pulse_writes_bound, pulse_between_writes_bound,
    fun N h3 => christmas_writes_bound N h3, candy_cane_writes_bound,
    vapor_trail_writes_bound, draw_and_erase_writes_bound, ?_⟩
  intro s x hx
  have weaken : ∀ t : Strip, ∀ y ∈ t.writes,
      (y ∈ t.writes ∨ (0 ≤ y.1 ∧ y.1 ≤ ((150 : Nat) : Int))) := fun t y hy => Or.inl hy
  simp only [cycleOnce] at hx
  have step1 := single_color_writes_bound 150 Colors.CRYSTAL_BLUE 50 s
  have hstep : ∀ (t : Strip) (c : Nat), ∀ y ∈ (vapor_trail 150 c 20 Colors.NONE 50 t).writes,
      y ∈ t.writes ∨ (0 ≤ y.1 ∧ y.1 ≤ ((150 : Nat) : Int)) := by
    intro t c y hy
    rcases vapor_trail_writes_bound 150 c 20 Colors.NONE 50 t y hy with h | h
    · exact Or.inl h
    · exact Or.inr ⟨h.1, le_of_lt h.2⟩
  rcases writes_bound_foldl DEMO_COLORS _ (fun y => 0 ≤ y.1 ∧ y.1 ≤ ((150 : Nat) : Int))
    (fun t c _ => hstep t c) _ x hx with hx | hb
  swap
  · exact Or.inr hb
  rcases writes_bound_foldl DEMO_COLORS _ (fun y => 0 ≤ y.1 ∧ y.1 ≤ ((150 : Nat) : Int))
    (fun t c _ y hy => by
      rcases draw_and_erase_writes_bound 150 c Colors.WARM_WHITE 50 t y hy with h | h
      · exact Or.inl h
      · exact Or.inr ⟨by omega, h.2⟩) _ x hx with hx | hb
  swap
  · exact Or.inr hb
  rcases candy_cane_writes_bound 150 50 _ x hx with hx | hb
  swap
  · exact Or.inr ⟨hb.1, le_of_lt hb.2⟩
  rcases christmas_writes_bound 150 (by omega) 50 _ x hx with hx | hb
  swap
  · exact Or.inr ⟨hb.1, le_of_lt hb.2⟩
  rcases writes_bound_foldl DEMO_COLORS _ (fun y => 0 ≤ y.1 ∧ y.1 ≤ ((150 : Nat) : Int))
    (fun t c _ y hy => by
      rcases pulse_writes_bound 150 c 75 t y hy with h | h
      · exact Or.inl h
      · exact Or.inr ⟨h.1, le_of_lt h.2⟩) _ x hx with hx | hb
  swap
  · exact Or.inr hb
  rcases pulse_between_writes_bound 150 [Colors.WARM_WHITE, Colors.CRYSTAL_BLUE] 50 _ x hx
    with hx | hb
  swap
  · exact Or.inr ⟨hb.1, le_of_lt hb.2⟩
  rcases alternating_writes_bound 150 (by omega) Colors.CRYSTAL_BLUE Colors.PURE_WHITE 50 _
    x hx with hx | hb
  swap
  · exact Or.inr ⟨hb.1, le_of_lt hb.2⟩
  rcases single_color_writes_bound 150 Colors.CRYSTAL_BLUE 50 s x hx with hx | hb
  · exact Or.inl hx
  · exact Or.inr ⟨hb.1, le_of_lt hb.2⟩

/-- C3 witness: the amended bound applied to the single concrete setter call
recorded first by a solid fill on a one-pixel strip. -/
theorem C3_index_bounds_amended_witness :
    ((0 : Int), alter_brightness Colors.CRYSTAL_BLUE 1) ∈ (initStrip 1 0).writes ∨
      (0 ≤ ((0 : Int), alter_brightness Colors.CRYSTAL_BLUE 1).1 ∧
        ((0 : Int), alter_brightness Colors.CRYSTAL_BLUE 1).1 < ((1 : Nat) : Int)) := by
  apply C3_index_bounds_amended.1 1 Colors.CRYSTAL_BLUE 50 (initStrip 1 0)
  obtain ⟨hw, _, _⟩ := foldl_set_desc (pyRange 0 ((1 : Nat) : Int))
    (fun s i => set_pixel_color s i Colors.CRYSTAL_BLUE 1)
    (fun i => (i, alter_brightness Colors.CRYSTAL_BLUE 1)) (fun s i => rfl) (initStrip 1 0)
  simp only [single_color, show_with_delay]
  rw [hw, show pyRange 0 ((1 : Nat) : Int) = [0] by decide]
  simp

end ChristmasTree

namespace ChristmasTree

/-- C6 fails as stated at k = 10: the clear of the 11th-back pixel is guarded
by lower_bound > 0 and lower_bound = max(10 - 10, 0) = 0, so the frame flushed
after phase 1's head reaches index 10 still shows the pre-call color at pixel
10 - 10 = 0 rather than NONE. -/
theorem C6_k_ten_counterexample :
    ∃ B : List Int,
      (draw_and_erase 12 Colors.CRYSTAL_BLUE Colors.WARM_WHITE 50
        (initStrip 12 ((Colors.PURE_WHITE : Nat) : Int))).frames[10]? = some (B, 50) ∧
      B[0]? = some ((Colors.PURE_WHITE : Nat) : Int) ∧
      ((Colors.PURE_WHITE : Nat) : Int) ≠ alter_brightness Colors.NONE 1 := by
  have hf : ∀ (t : Strip) (a : Int), 0 ≤ a →
      (drawStep Colors.WARM_WHITE 50 t a).buf =
        applyWrites t.buf (drawWrites Colors.WARM_WHITE a) ∧
      (drawStep Colors.WARM_WHITE 50 t a).frames =
        t.frames ++ [((drawStep Colors.WARM_WHITE 50 t a).buf, 50)] := by
    intro t a _
    obtain ⟨_, hb, hfr⟩ := drawStep_desc Colors.WARM_WHITE 50 t a
    exact ⟨hb, by rw [hfr, hb]⟩
  obtain ⟨hlen, _, hidx⟩ := foldl_frames_indexed (drawStep Colors.WARM_WHITE 50)
    (drawWrites Colors.WARM_WHITE) 50 (fun x => 1 ≤ x.1) hf
    (fun a _ x hx => (drawWrites_bound Colors.WARM_WHITE a x hx).1)
    12 (initStrip 12 ((Colors.PURE_WHITE : Nat) : Int)) rfl
  obtain ⟨ws0, hfr10, hP⟩ := hidx 10 (by omega)
  have hreach : Reaches
      ((pyRange 0 ((12 : Nat) : Int)).foldl (drawStep Colors.WARM_WHITE 50)
        (initStrip 12 ((Colors.PURE_WHITE : Nat) : Int)))
      ((pyRangeRev ((12 : Nat) : Int) 0).foldl (drawStep Colors.CRYSTAL_BLUE 50)
        ((pyRange 0 ((12 : Nat) : Int)).foldl (drawStep Colors.WARM_WHITE 50)
          (initStrip 12 ((Colors.PURE_WHITE : Nat) : Int)))) :=
    reaches_foldl _ _ (fun t a _ => reaches_drawStep _ _ t a) Reaches.refl
  obtain ⟨fs, hfs⟩ := reaches_frames_append hreach
  refine ⟨applyWrites
      (applyWrites (initStrip 12 ((Colors.PURE_WHITE : Nat) : Int)).buf ws0)
      (drawWrites Colors.WARM_WHITE ((10 : Nat) : Int)), ?_, ?_, ?_⟩
  · rw [draw_and_erase_eq, hfs, List.getElem?_append_left (by rw [hlen]; omega), hfr10]
  · rw [getElem?_applyWrites_ne (fun x hx hc => by
        have h1x := (drawWrites_bound Colors.WARM_WHITE _ x hx).1
        rw [hc] at h1x
        omega),
      getElem?_applyWrites_ne (fun x hx hc => by
        have h1x := hP x hx
        rw [hc] at h1x
        omega)]
    rfl
  · rw [alter_brightness_one (by decide)]
    decide

/-- C6 (amended): the 11th-back clear requires the head index k >= 11, not
k >= 10.  For 11 <= k < N, the frame flushed after phase 1's head reaches
index k shows pixel k - 10 exactly NONE and pixels k - 9 .. k holding the
phase-1 color (which the code makes the eraser) at the fade brightnesses
(10 - j)/10 for j = 9 .. 0; and for any head index at most 10 (lower bound at
pixel 0) the clear write is skipped entirely: the head's setter calls are the
fade writes alone. -/
theorem C6_eleventh_back_amended (N : Nat) (dc er : Nat) (w v : Int) (k : Nat)
    (hk : 11 ≤ k) (hkN : k < N) :
    (∃ B : List Int,
      (draw_and_erase N dc er w (initStrip N v)).frames[k]? = some (B, w) ∧
      B[k - 10]? = some (alter_brightness Colors.NONE 1) ∧
      ∀ j : Nat, j ≤ 9 → B[k - j]? =
        some (alter_brightness er (((10 - (j : Int) : Int) : Rat) / 10))) ∧
    ∀ (c : Nat) (led : Int), led ≤ 10 →
      drawWrites c led = (pyRangeRev led (max (led - 10) 0)).enum.map
        fun p => (p.2, alter_brightness c (((10 - (p.1 : Int) : Int) : Rat) / 10)) := by
  constructor
  · have hf : ∀ (t : Strip) (a : Int), 0 ≤ a →
        (drawStep er w t a).buf = applyWrites t.buf (drawWrites er a) ∧
        (drawStep er w t a).frames = t.frames ++ [((drawStep er w t a).buf, w)] := by
      intro t a _
      obtain ⟨_, hb, hfr⟩ := drawStep_desc er w t a
      exact ⟨hb, by rw [hfr, hb]⟩
    obtain ⟨hlen, _, hidx⟩ := foldl_frames_indexed (drawStep er w)
      (drawWrites er) w (fun _ => True) hf (fun _ _ _ _ => trivial)
      N (initStrip N v) rfl
    obtain ⟨ws0, hfrk, _⟩ := hidx k hkN
    have hreach : Reaches
        ((pyRange 0 ((N : Nat) : Int)).foldl (drawStep er w) (initStrip N v))
        ((pyRangeRev N 0).foldl (drawStep dc w)
          ((pyRange 0 ((N : Nat) : Int)).foldl (drawStep er w) (initStrip N v))) :=
      reaches_foldl _ _ (fun t a _ => reaches_drawStep _ _ t a) Reaches.refl
    obtain ⟨fs, hfs⟩ := reaches_frames_append hreach
    obtain ⟨hnone, hramp⟩ := drawFrame_query er
      (applyWrites (initStrip N v).buf ws0) k hk
      (by rw [length_applyWrites]; simp only [initStrip, List.length_replicate]; omega)
    exact ⟨applyWrites (applyWrites (initStrip N v).buf ws0) (drawWrites er (k : Int)),
      by rw [draw_and_erase_eq, hfs, List.getElem?_append_left (by rw [hlen]; omega), hfrk],
      hnone, hramp⟩
  · intro c led hled
    unfold drawWrites
    rw [if_neg (by rcases max_choice (led - 10) (0 : Int) with h | h <;> rw [h] <;> omega),
      List.append_nil]

/-- C6 witness: the amended statement at N = 12, k = 11 with the demo colors
and an all-off initial strip. -/
theorem C6_eleventh_back_amended_witness :
    (∃ B : List Int,
      (draw_and_erase 12 Colors.CRYSTAL_BLUE Colors.WARM_WHITE 50
        (initStrip 12 0)).frames[11]? = some (B, 50) ∧
      B[11 - 10]? = some (alter_brightness Colors.NONE 1) ∧
      ∀ j : Nat, j ≤ 9 → B[11 - j]? =
        some (alter_brightness Colors.WARM_WHITE (((10 - (j : Int) : Int) : Rat) / 10))) ∧
    ∀ (c : Nat) (led : Int), led ≤ 10 →
      drawWrites c led = (pyRangeRev led (max (led - 10) 0)).enum.map
        fun p => (p.2, alter_brightness c (((10 - (p.1 : Int) : Int) : Rat) / 10)) :=
  C6_eleventh_back_amended 12 Colors.CRYSTAL_BLUE Colors.WARM_WHITE 50 0 11
    (by decide) (by decide)

end ChristmasTree

namespace ChristmasTree

/-- C5: each head position led of vaporTrail issues exactly the trail writes
(pixel (led+offset) mod N to color at brightness offset/t for offset
0..t-1) followed by the trail_color write at pixel led, then one flush; on a
fresh strip the call flushes one frame per head position, and the frame
flushed at head position h shows pixel (h+o) mod N holding color at
brightness o/t for 0 < o < t and pixel h holding the trail color (the
offset-0 write at brightness 0 being overwritten by the trail-color write). -/
theorem C5_vapor_trail_frames (N : Nat) (c t tc : Nat) (w v : Int) (h : Nat)
    (hh : h < N) (ht1 : 1 ≤ t) (htN : t ≤ N) (htc : tc < 16777216) :
    (∀ (s : Strip) (led : Int), 0 ≤ led →
      (vaporStep N c t tc w s led).writes = s.writes ++ vaporWrites N c t tc led ∧
      (vaporStep N c t tc w s led).frames =
        s.frames ++ [((vaporStep N c t tc w s led).buf, w)]) ∧
    (vapor_trail N c t tc w (initStrip N v)).frames.length = N ∧
    ∃ B : List Int,
      (vapor_trail N c t tc w (initStrip N v)).frames[h]? = some (B, w) ∧
      (∀ o : Nat, o < t → 0 < o →
        B[(h + o) % N]? = some (alter_brightness c ((o : Rat) / (t : Rat)))) ∧
      B[h]? = some ((tc : Int)) := by
  have hstep : ∀ (s : Strip) (led : Int), 0 ≤ led →
      (vaporStep N c t tc w s led).writes = s.writes ++ vaporWrites N c t tc led ∧
      (vaporStep N c t tc w s led).frames =
        s.frames ++ [((vaporStep N c t tc w s led).buf, w)] := by
    intro s led hl
    obtain ⟨hw, hb, hfr⟩ := vaporStep_desc N c t tc w s led hl
    exact ⟨hw, by rw [hfr, hb]⟩
  have hf : ∀ (s : Strip) (a : Int), 0 ≤ a →
      (vaporStep N c t tc w s a).buf = applyWrites s.buf (vaporWrites N c t tc a) ∧
      (vaporStep N c t tc w s a).frames =
        s.frames ++ [((vaporStep N c t tc w s a).buf, w)] := by
    intro s a ha
    obtain ⟨_, hb, hfr⟩ := vaporStep_desc N c t tc w s a ha
    exact ⟨hb, by rw [hfr, hb]⟩
  obtain ⟨hlen, _, hidx⟩ := foldl_frames_indexed (vaporStep N c t tc w)
    (vaporWrites N c t tc) w (fun _ => True) hf (fun _ _ _ _ => trivial)
    N (initStrip N v) rfl
  obtain ⟨ws0, hfrh, _⟩ := hidx h hh
  obtain ⟨hslots, hhead⟩ := vaporFrame_query N c t tc
    (applyWrites (initStrip N v).buf ws0) h
    (by rw [length_applyWrites]; simp [initStrip]) hh htN htc
  refine ⟨hstep, ?_, ?_⟩
  · simp only [vapor_trail]
    exact hlen
  · refine ⟨applyWrites (applyWrites (initStrip N v).buf ws0)
      (vaporWrites N c t tc (h : Int)), ?_, hslots, hhead⟩
    simp only [vapor_trail]
    exact hfrh

/-- C5 witness: the spec's particular instance, a red vapor trail with
trail = 10 and trail color NONE on a fresh 150-pixel strip: the frame at head
position 7 holds the trail color at pixel 7 and the color at brightness
5/10 = 1/2 at pixel (7 + 5) mod 150. -/
theorem C5_vapor_trail_frames_witness :
    ∃ B : List Int,
      (vapor_trail 150 Colors.CRYSTAL_RED 10 Colors.NONE 50
        (initStrip 150 0)).frames[7]? = some (B, 50) ∧
      B[(7 + 5) % 150]? = some (alter_brightness Colors.CRYSTAL_RED (1 / 2 : Rat)) ∧
      B[7]? = some ((Colors.NONE : Nat) : Int) := by
  obtain ⟨_, _, B, hB, hslots, hhead⟩ := C5_vapor_trail_frames 150 Colors.CRYSTAL_RED 10
    Colors.NONE 50 0 7 (by decide) (by decide) (by decide) (by decide)
  refine ⟨B, hB, ?_, hhead⟩
  have h5 := hslots 5 (by decide) (by decide)
  rw [show (((5 : Nat) : Rat) / ((10 : Nat) : Rat)) = (1 / 2 : Rat) by norm_num] at h5
  exact h5

end ChristmasTree

namespace ChristmasTree

/-- C8: on a strip whose length N is a multiple of 3, christmasColors sets
pixel j to the repeating white/red/green 3-cycle selected by j mod 3, scaled
to brightness 0.4, and then issues exactly two consecutive flushes with the
same delay and no pixel writes between them: the call appends exactly two
frames, both holding the final buffer, both with the same wait time. -/
theorem C8_christmas_colors_cycle (N : Nat) (hN : 3 ∣ N) (w : Int) (s : Strip)
    (hlen : s.buf.length = N) :
    (∀ j : Nat, j < N → (christmas_colors N w s).buf[j]? =
      some (alter_brightness (chrColor (j % 3)) (4 / 10 : Rat))) ∧
    (christmas_colors N w s).frames =
      s.frames ++ [((christmas_colors N w s).buf, w), ((christmas_colors N w s).buf, w)] := by
  obtain ⟨m, rfl⟩ := hN
  obtain ⟨hj, hlenF, hfrF⟩ := christmas_fill m s
  constructor
  · intro j hjN
    have hq := hj j
    rw [if_pos ⟨hjN, by omega⟩] at hq
    simp only [christmas_colors, show_with_delay]
    exact hq
  · simp only [christmas_colors, show_with_delay]
    rw [hfrF, List.append_assoc]
    rfl

/-- C8 witness: christmasColors on a fresh 6-pixel strip fills pixel 4
(4 mod 3 = 1) with red at brightness 0.4. -/
theorem C8_christmas_colors_cycle_witness :
    (3 ∣ 6) ∧ (initStrip 6 0).buf.length = 6 ∧
    (christmas_colors 6 50 (initStrip 6 0)).buf[4]? =
      some (alter_brightness (chrColor (4 % 3)) (4 / 10 : Rat)) :=
  ⟨by decide, rfl,
    (C8_christmas_colors_cycle 6 (by decide) 50 (initStrip 6 0) rfl).1 4 (by decide)⟩

end ChristmasTree

namespace ChristmasTree

/-- C9 fails as stated: patterns do not explicitly clear pixels outside the
current trail window.  On a 12-pixel strip pre-filled with pure white, the
first frame vapor_trail (trail 3, trail color NONE) flushes writes only
pixels 0, 1 and 2; pixel 5 — outside the window — is never written during
that frame and still shows the pre-call pure white at the flush, not a
cleared/reset value. -/
theorem C9_stale_pixel_counterexample :
    (∀ x ∈ vaporWrites 12 Colors.CRYSTAL_RED 3 Colors.NONE 0, x.1 ≠ (5 : Int)) ∧
    ∃ B : List Int,
      (vapor_trail 12 Colors.CRYSTAL_RED 3 Colors.NONE 50
        (initStrip 12 ((Colors.PURE_WHITE : Nat) : Int))).frames[0]? = some (B, 50) ∧
      B[5]? = some ((Colors.PURE_WHITE : Nat) : Int) ∧
      ((Colors.PURE_WHITE : Nat) : Int) ≠ alter_brightness Colors.NONE 1 := by
  have hW5 : ∀ x ∈ vaporWrites 12 Colors.CRYSTAL_RED 3 Colors.NONE 0, x.1 ≠ (5 : Int) := by
    intro x hx
    rw [vaporWrites_eq] at hx
    simp only [List.mem_append, List.mem_map, List.mem_range, List.mem_singleton] at hx
    rcases hx with ⟨o, ho, hx⟩ | hx
    · rw [← hx]
      show ((0 : Int) + (o : Int)) % ((12 : Nat) : Int) ≠ (5 : Int)
      push_cast
      omega
    · rw [hx]
      show (0 : Int) ≠ (5 : Int)
      decide
  obtain ⟨_, hb0, hfr0⟩ := vaporStep_desc 12 Colors.CRYSTAL_RED 3 Colors.NONE 50
    (initStrip 12 ((Colors.PURE_WHITE : Nat) : Int)) 0 le_rfl
  have hsplit : pyRange 0 ((12 : Nat) : Int) = (0 : Int) :: pyRange 1 ((12 : Nat) : Int) := by
    decide
  have hreach : Reaches
      (vaporStep 12 Colors.CRYSTAL_RED 3 Colors.NONE 50
        (initStrip 12 ((Colors.PURE_WHITE : Nat) : Int)) 0)
      ((pyRange 1 ((12 : Nat) : Int)).foldl (vaporStep 12 Colors.CRYSTAL_RED 3 Colors.NONE 50)
        (vaporStep 12 Colors.CRYSTAL_RED 3 Colors.NONE 50
          (initStrip 12 ((Colors.PURE_WHITE : Nat) : Int)) 0)) :=
    reaches_foldl _ _ (fun t a _ => reaches_vaporStep _ _ _ _ _ t a) Reaches.refl
  obtain ⟨fs, hfs⟩ := reaches_frames_append hreach
  refine ⟨hW5, applyWrites (initStrip 12 ((Colors.PURE_WHITE : Nat) : Int)).buf
    (vaporWrites 12 Colors.CRYSTAL_RED 3 Colors.NONE 0), ?_, ?_, ?_⟩
  · simp only [vapor_trail]
    rw [hsplit, List.foldl_cons, hfs, hfr0]
    simp [initStrip]
  · rw [getElem?_applyWrites_ne (fun x hx => hW5 x hx)]
    rfl
  · rw [alter_brightness_one (by decide)]
    decide

/-- C9 (amended): the true invariant is last-write-wins, not explicit
clearing: any state reached from s by setter calls and flushes satisfies
FlushesFaithful s — the final buffer is the initial buffer updated by the new
writes in order, so at each flush every slot holds the value most recently set
for it, and a slot never written retains its pre-call value (out-of-window
pixels persist rather than being cleared).  Every pattern of the controller,
and one whole top-level cycle, produces such a reachable state. -/
theorem C9_flush_invariant_amended (s : Strip) :
    (∀ t : Strip, Reaches s t → FlushesFaithful s t) ∧
    (∀ (N c c1 c2 dc er trail tc : Nat) (cs : List Nat) (w : Int),
      Reaches s (single_color N c w s) ∧
      Reaches s (alternating_colors N c1 c2 w s) ∧
      Reaches s (pulse N c w s) ∧
      Reaches s (pulse_between N cs w s) ∧
      Reaches s (christmas_colors N w s) ∧
      Reaches s (candy_cane N w s) ∧
      Reaches s (draw_and_erase N dc er w s) ∧
      Reaches s (vapor_trail N c trail tc w s)) ∧
    Reaches s (cycleOnce s) :=
  ⟨fun _ h => reaches_flushesFaithful h,
   fun N c c1 c2 dc er trail tc cs w =>
     ⟨reaches_single_color N c w s, reaches_alternating N c1 c2 w s, reaches_pulse N c w s,
      reaches_pulse_between N cs w s, reaches_christmas N w s, reaches_candy_cane N w s,
      reaches_draw_and_erase N dc er w s, reaches_vapor_trail N c trail tc w s⟩,
   reaches_cycleOnce s⟩

/-- C9 witness: the amended invariant applied to a single flush on a fresh
two-pixel strip. -/
theorem C9_flush_invariant_amended_witness :
    FlushesFaithful (initStrip 2 0) (show_with_delay (initStrip 2 0) 50) :=
  (C9_flush_invariant_amended (initStrip 2 0)).1 _ (Reaches.flush _ 50 Reaches.refl)

end ChristmasTree

namespace ChristmasTree

/-- C10: drawAndErase never writes pixel slot 0 in either phase — every setter
call it makes targets an index at least 1 (the descending fade loop stops
before the lower bound and the clear is skipped when the lower bound is 0) —
so slot 0 retains its pre-call value in the final buffer and in every frame
the call flushes. -/
theorem C10_slot_zero_untouched (N : Nat) (dc er : Nat) (w : Int) (s : Strip)
    (hsw : s.writes = []) :
    (∀ x ∈ (draw_and_erase N dc er w s).writes, 1 ≤ x.1) ∧
    (draw_and_erase N dc er w s).buf[0]? = s.buf[0]? ∧
    ∀ fr ∈ (draw_and_erase N dc er w s).frames, fr ∈ s.frames ∨ fr.1[0]? = s.buf[0]? := by
  have hbound : ∀ x ∈ (draw_and_erase N dc er w s).writes, 1 ≤ x.1 := by
    intro x hx
    rcases draw_and_erase_writes_bound N dc er w s x hx with h | h
    · rw [hsw] at h
      exact absurd h (List.not_mem_nil x)
    · exact h.1
  obtain ⟨ws, hw, hbuf, hfr⟩ :=
    reaches_flushesFaithful (reaches_draw_and_erase N dc er w s)
  have hws : ∀ x ∈ ws, x.1 ≠ ((0 : Nat) : Int) := by
    intro x hx hc
    have h1 : 1 ≤ x.1 := hbound x (by rw [hw]; exact List.mem_append_right _ hx)
    rw [hc] at h1
    omega
  refine ⟨hbound, ?_, ?_⟩
  · rw [hbuf, getElem?_applyWrites_ne hws]
  · intro fr hfrm
    rcases hfr fr hfrm with h | ⟨ws1, ws2, hws12, hfr1⟩
    · exact Or.inl h
    · refine Or.inr ?_
      rw [hfr1, getElem?_applyWrites_ne (fun x hx =>
        hws x (by rw [← hws12]; exact List.mem_append_left _ hx))]

/-- C10 witness: on a fresh two-pixel strip holding 7 everywhere, slot 0
still holds 7 after a full drawAndErase pass. -/
theorem C10_slot_zero_untouched_witness :
    (initStrip 2 7).writes = [] ∧
    (draw_and_erase 2 Colors.CRYSTAL_BLUE Colors.WARM_WHITE 50 (initStrip 2 7)).buf[0]? =
      (initStrip 2 7).buf[0]? :=
  ⟨rfl, (C10_slot_zero_untouched 2 Colors.CRYSTAL_BLUE Colors.WARM_WHITE 50
    (initStrip 2 7) rfl).2.1⟩

end ChristmasTree
